import Mathlib

set_option linter.unnecessarySeqFocus false

/-!
Shallow embedding of the MIS-report aggregation route and the purchase
dashboard route of the MERN-STACK-FMS repository, with proofs of the
spec's testable properties.

JavaScript conventions carried into the model:
* a missing / `undefined` / `null` string field is modelled as the empty
  string `""` (both are falsy in `if (x)` / `x || d` positions, and the
  source only ever tests them for truthiness or compares them to
  non-empty literals);
* a possibly-`null` populated user reference is `Option UserRef`;
* JS plain objects used as counter maps (`obj[k] = (obj[k] || 0) + 1`)
  are association lists in insertion order, matching JS object key order.
-/

namespace MisReport

/-- A populated user reference (`_id`, `username`, `email`); a missing
`username`/`email` is the empty string, which is falsy in JS. -/
structure UserRef where
  id : String
  username : String
  email : String
deriving Repr, DecidableEq

/-- `obj[k] = (obj[k] || 0) + 1` on a JS object used as a counter map:
increment in place if the key exists, otherwise append it (JS objects keep
insertion order). -/
def bump : List (String × Nat) → String → List (String × Nat)
  | [], k => [(k, 1)]
  | (k', v) :: rest, k =>
    if k' = k then (k', v + 1) :: rest else (k', v) :: bump rest k

/-- Same counter-map update keyed by a natural number
(`stepStatusBreakdown[stepNo]`). -/
def bumpNat : List (Nat × Nat) → Nat → List (Nat × Nat)
  | [], k => [(k, 1)]
  | (k', v) :: rest, k =>
    if k' = k then (k', v + 1) :: rest else (k', v) :: bumpNat rest k

/-- `if (!map[k]) map[k] = init; f(map[k])` on a JS object keyed by user id:
apply `f` to the existing entry, or append `f init` (JS objects keep
insertion order). -/
def updatePerson {P : Type} : List (String × P) → String → P → (P → P) → List (String × P)
  | [], k, init, f => [(k, f init)]
  | (k', v) :: rest, k, init, f =>
    if k' = k then (k', f v) :: rest else (k', v) :: updatePerson rest k init f

/-- Value of key `k` in a counter map, `0` when absent (`map[k] || 0`). -/
def lookupCount : List (String × Nat) → String → Nat
  | [], _ => 0
  | (k', v) :: rest, k => if k' = k then v else lookupCount rest k

/-- Sum of all bucket values of a counter map. -/
def sumCounts (l : List (String × Nat)) : Nat :=
  (l.map (·.2)).sum

/-- Lookup in an association list keyed by user id. -/
def lookupP {P : Type} : List (String × P) → String → Option P
  | [], _ => none
  | (k', v) :: rest, k => if k' = k then some v else lookupP rest k

/-- Sum of a numeric projection over the values of an association list. -/
def sumBy {P : Type} (tot : P → Nat) (l : List (String × P)) : Nat :=
  (l.map (fun e => tot e.2)).sum

/-- `s || d` on a JS string: the default replaces only the empty string. -/
def orDefault (s d : String) : String := if s = "" then d else s

/-- `ref?._id` as a JS value usable in a truthiness test: the empty string
stands for `undefined`/missing. -/
def idOf : Option UserRef → String
  | none => ""
  | some u => u.id

/-! ## Help tickets (lines 236–280 of the MIS route) -/

/-- A fetched help ticket: free-text `status` (possibly missing), populated
`assignedTo` and `raisedBy` references (possibly null). -/
structure HelpTicket where
  status : Option String
  assignedTo : Option UserRef
  raisedBy : Option UserRef
deriving Repr, DecidableEq

/-- `s.toLowerCase()`, character-wise ASCII lower-casing (every status
string this route compares against is ASCII, where JS `toLowerCase`
agrees). -/
def jsToLower (s : String) : String := String.mk (s.data.map Char.toLower)

/-- `ticket.status?.toLowerCase() || 'open'`: missing or empty status
defaults to `"open"`, anything else is lower-cased. -/
def htNormStatus (t : HelpTicket) : String :=
  let s := match t.status with
    | some s => jsToLower s
    | none => ""
  if s = "" then "open" else s

/-- `ticket.assignedTo?._id || ticket.raisedBy?._id` (empty = falsy). -/
def htPersonId (t : HelpTicket) : String :=
  if idOf t.assignedTo ≠ "" then idOf t.assignedTo else idOf t.raisedBy

/-- `ticket.assignedTo || ticket.raisedBy`; the all-empty reference is
unreachable when `htPersonId t ≠ ""`. -/
def htPersonRef (t : HelpTicket) : UserRef :=
  match t.assignedTo with
  | some u => u
  | none =>
    match t.raisedBy with
    | some v => v
    | none => ⟨"", "", ""⟩

/-- Per-person record of the help-ticket aggregate. -/
structure HtPerson where
  userId : String
  username : String
  email : String
  total : Nat
  openCount : Nat
  inProgress : Nat
  closed : Nat
deriving Repr, DecidableEq

/-- The help-ticket aggregate (`helpTicketStats`). -/
structure HtStats where
  total : Nat
  openCount : Nat
  inProgress : Nat
  closed : Nat
  byPerson : List (String × HtPerson)
deriving Repr, DecidableEq

/-- Zero-initialised per-person record created on first encounter. -/
def htPersonInit (t : HelpTicket) : HtPerson :=
  let person := htPersonRef t
  { userId := htPersonId t, username := orDefault person.username "Unknown",
    email := person.email, total := 0, openCount := 0, inProgress := 0, closed := 0 }

/-- The per-person increments of one `forEach` iteration: `total++` plus the
status bucket matching the normalised status. -/
def htPersonBump (t : HelpTicket) (p : HtPerson) : HtPerson :=
  let st := htNormStatus t
  let p1 := { p with total := p.total + 1 }
  if st = "open" then { p1 with openCount := p1.openCount + 1 }
  else if st = "in progress" then { p1 with inProgress := p1.inProgress + 1 }
  else if st = "closed" ∨ st = "verified & closed" then { p1 with closed := p1.closed + 1 }
  else p1

/-- Person-wise part of one `forEach` iteration: skipped entirely when
neither reference has an id. -/
def htPersonStep (l : List (String × HtPerson)) (t : HelpTicket) : List (String × HtPerson) :=
  let pid := htPersonId t
  if pid = "" then l
  else updatePerson l pid (htPersonInit t) (htPersonBump t)

/-- Body of `helpTickets.forEach`: global status bucket, then person-wise
breakdown. -/
def htStep (s : HtStats) (t : HelpTicket) : HtStats :=
  let st := htNormStatus t
  let s1 :=
    if st = "open" then { s with openCount := s.openCount + 1 }
    else if st = "in progress" then { s with inProgress := s.inProgress + 1 }
    else if st = "closed" ∨ st = "verified & closed" then { s with closed := s.closed + 1 }
    else s
  { s1 with byPerson := htPersonStep s1.byPerson t }

/-- `helpTicketStats` after the whole `forEach`; `total` is set upfront to
`helpTickets.length`. -/
def computeHelpTicketStats (ts : List HelpTicket) : HtStats :=
  ts.foldl htStep
    { total := ts.length, openCount := 0, inProgress := 0, closed := 0, byPerson := [] }

/-- Ticket classified into the `open` bucket. -/
def htIsOpen (t : HelpTicket) : Bool := htNormStatus t == "open"

/-- Ticket classified into the `in-progress` bucket. -/
def htIsInProgress (t : HelpTicket) : Bool := htNormStatus t == "in progress"

/-- Ticket classified into the `closed` bucket. -/
def htIsClosed (t : HelpTicket) : Bool :=
  htNormStatus t == "closed" || htNormStatus t == "verified & closed"

/-- Ticket whose normalised status falls into one of the three buckets. -/
def htRecognized (t : HelpTicket) : Bool :=
  htIsOpen t || htIsInProgress t || htIsClosed t

/-- Ticket that contributes a `byPerson` entry. -/
def htHasPerson (t : HelpTicket) : Bool := htPersonId t != ""

/-- Counter projection of the entry at key `k`, `0` when absent. -/
def projAt {P : Type} (proj : P → Nat) (l : List (String × P)) (k : String) : Nat :=
  ((lookupP l k).map proj).getD 0

/-- Ticket attributed (assignedTo-first, raisedBy-fallback) to key `k`. -/
def htAttributedTo (k : String) (t : HelpTicket) : Bool := htPersonId t == k

/-! ## Tasks (lines 58–117 of the MIS route) -/

/-- A fetched task: `status` and `taskType` strings (`""` = missing) and a
populated `assignedTo` reference (possibly null). -/
structure Task where
  status : String
  taskType : String
  assignedTo : Option UserRef
deriving Repr, DecidableEq

/-- Per-person record of the task aggregate.  The source stores it as one
JS object whose keys are the fixed counters plus a dynamically created key
per unrecognised status; `extra` holds those dynamic keys.  `inProgress`
is the `'in-progress'` key. -/
structure TaskPerson where
  userId : String
  username : String
  email : String
  total : Nat
  oneOff : Nat
  cyclic : Nat
  pending : Nat
  inProgress : Nat
  completed : Nat
  overdue : Nat
  extra : List (String × Nat)
deriving Repr, DecidableEq

/-- The task aggregate (`taskStats`). -/
structure TaskStats where
  total : Nat
  oneOff : Nat
  cyclic : Nat
  byStatus : List (String × Nat)
  byType : List (String × Nat)
  byPerson : List (String × TaskPerson)
deriving Repr, DecidableEq

/-- `byPerson[userId][task.status] = (byPerson[userId][task.status] || 0) + 1`:
the status key is looked up in the same object that holds the fixed
counters, so a status spelled like a counter key hits that counter.  The
three string-valued identity keys are left unchanged (JS would corrupt
them to a string, touching no counter). -/
def taskPersonStatusBump (st : String) (p : TaskPerson) : TaskPerson :=
  match st with
  | "total" => { p with total := p.total + 1 }
  | "oneOff" => { p with oneOff := p.oneOff + 1 }
  | "cyclic" => { p with cyclic := p.cyclic + 1 }
  | "pending" => { p with pending := p.pending + 1 }
  | "in-progress" => { p with inProgress := p.inProgress + 1 }
  | "completed" => { p with completed := p.completed + 1 }
  | "overdue" => { p with overdue := p.overdue + 1 }
  | "userId" | "username" | "email" => p
  | _ => { p with extra := bump p.extra st }

/-- Zero-initialised per-person task record. -/
def taskPersonInit (u : UserRef) : TaskPerson :=
  { userId := u.id, username := orDefault u.username "Unknown", email := u.email,
    total := 0, oneOff := 0, cyclic := 0, pending := 0, inProgress := 0,
    completed := 0, overdue := 0, extra := [] }

/-- Per-person increments of one task: `total++`, `oneOff`/`cyclic`, then
the status bucket when the status is non-empty. -/
def taskPersonBump (t : Task) (p : TaskPerson) : TaskPerson :=
  let p1 := { p with total := p.total + 1 }
  let p2 :=
    if t.taskType = "one-time" then { p1 with oneOff := p1.oneOff + 1 }
    else { p1 with cyclic := p1.cyclic + 1 }
  if t.status ≠ "" then taskPersonStatusBump t.status p2 else p2

/-- Person-wise part of one task iteration (`task.assignedTo &&
task.assignedTo._id` guard). -/
def taskPersonStep (l : List (String × TaskPerson)) (t : Task) :
    List (String × TaskPerson) :=
  match t.assignedTo with
  | some u =>
    if u.id ≠ "" then updatePerson l u.id (taskPersonInit u) (taskPersonBump t) else l
  | none => l

/-- Body of `tasks.forEach`: status histogram, type histogram, person-wise
breakdown. -/
def taskStep (s : TaskStats) (t : Task) : TaskStats :=
  let s1 := if t.status ≠ "" then { s with byStatus := bump s.byStatus t.status } else s
  let s2 := if t.taskType ≠ "" then { s1 with byType := bump s1.byType t.taskType } else s1
  { s2 with byPerson := taskPersonStep s2.byPerson t }

/-- `taskStats` before the `forEach`: totals by filtering, seeded
histograms, empty person map. -/
def taskInitStats (ts : List Task) : TaskStats :=
  { total := ts.length,
    oneOff := (ts.filter (fun t => t.taskType == "one-time")).length,
    cyclic := (ts.filter (fun t => t.taskType != "one-time")).length,
    byStatus := [("pending", 0), ("in-progress", 0), ("completed", 0), ("overdue", 0)],
    byType := [("one-time", 0), ("daily", 0), ("weekly", 0), ("monthly", 0),
      ("quarterly", 0), ("yearly", 0)],
    byPerson := [] }

/-- `taskStats` after the whole `forEach`. -/
def computeTaskStats (ts : List Task) : TaskStats :=
  ts.foldl taskStep (taskInitStats ts)

/-- Task that contributes a `byPerson` entry. -/
def taskHasPerson (t : Task) : Bool :=
  match t.assignedTo with
  | some u => u.id != ""
  | none => false

/-- Task with a truthy status (counted in the status histogram). -/
def taskHasStatus (t : Task) : Bool := t.status != ""

/-- Task status that is present and does not collide with a fixed key of
the per-person record object. -/
def taskStatusSafe (t : Task) : Bool :=
  t.status != "" && t.status != "total" && t.status != "oneOff" &&
  t.status != "cyclic" && t.status != "userId" && t.status != "username" &&
  t.status != "email"

/-! ## FMS workflow instances (lines 122–181 of the MIS route) -/

/-- One workflow step (`project.tasks[i]`): `stepNo || 0` makes a missing
step number indistinguishable from `0`, so `stepNo : Nat` with `0` for
missing is faithful. -/
structure WfStep where
  stepNo : Nat
  status : String
  who : Option UserRef
deriving Repr, DecidableEq

/-- One workflow instance (`project`), an ordered list of steps. -/
structure Project where
  tasks : List WfStep
deriving Repr, DecidableEq

/-- `project.tasks.every(t => t.status === 'Done')`. -/
def fmsAllDone (p : Project) : Bool :=
  p.tasks.all (fun t => t.status == "Done")

/-- `project.tasks.some(t => t.status === 'In Progress' || t.status === 'Pending')`. -/
def fmsHasInProgress (p : Project) : Bool :=
  p.tasks.any (fun t => t.status == "In Progress" || t.status == "Pending")

/-- `project.tasks.find(...)`: first step in stored order that is
Pending / In Progress / Not Started. -/
def fmsPendingStep (p : Project) : Option WfStep :=
  p.tasks.find? (fun t =>
    t.status == "Pending" || t.status == "In Progress" || t.status == "Not Started")

/-- Per-person record of the workflow aggregate. -/
structure FmsPerson where
  userId : String
  username : String
  email : String
  total : Nat
  inProgress : Nat
  completed : Nat
  pendingSteps : List Nat
deriving Repr, DecidableEq

/-- The workflow aggregate (`fmsStats`). -/
structure FmsStats where
  total : Nat
  inProgress : Nat
  completed : Nat
  byPerson : List (String × FmsPerson)
  stepStatusBreakdown : List (Nat × Nat)
deriving Repr, DecidableEq

/-- Zero-initialised per-person workflow record. -/
def fmsPersonInit (u : UserRef) : FmsPerson :=
  { userId := u.id, username := orDefault u.username "Unknown", email := u.email,
    total := 0, inProgress := 0, completed := 0, pendingSteps := [] }

/-- Per-person increments of one step: `total++`, then exactly one of
`inProgress++`, `completed++`, or `pendingSteps.push(stepNo || 0)`. -/
def fmsPersonBump (t : WfStep) (p : FmsPerson) : FmsPerson :=
  let p1 := { p with total := p.total + 1 }
  if t.status = "In Progress" then { p1 with inProgress := p1.inProgress + 1 }
  else if t.status = "Done" then { p1 with completed := p1.completed + 1 }
  else { p1 with pendingSteps := p1.pendingSteps ++ [t.stepNo] }

/-- Person-wise part of one step iteration (`task.who && task.who._id`
guard). -/
def fmsPersonStepUpd (l : List (String × FmsPerson)) (t : WfStep) :
    List (String × FmsPerson) :=
  match t.who with
  | some u =>
    if u.id ≠ "" then updatePerson l u.id (fmsPersonInit u) (fmsPersonBump t) else l
  | none => l

/-- Body of `projects.forEach`: classification, pending-step histogram,
then the per-step person-wise loop. -/
def fmsProjStep (s : FmsStats) (p : Project) : FmsStats :=
  let s1 :=
    if fmsAllDone p then { s with completed := s.completed + 1 }
    else if fmsHasInProgress p then { s with inProgress := s.inProgress + 1 }
    else s
  let s2 :=
    match fmsPendingStep p with
    | some t => { s1 with stepStatusBreakdown := bumpNat s1.stepStatusBreakdown t.stepNo }
    | none => s1
  { s2 with byPerson := p.tasks.foldl fmsPersonStepUpd s2.byPerson }

/-- `fmsStats` after the whole `forEach`. -/
def computeFmsStats (ps : List Project) : FmsStats :=
  ps.foldl fmsProjStep
    { total := ps.length, inProgress := 0, completed := 0, byPerson := [],
      stepStatusBreakdown := [] }

/-- Step that contributes a `byPerson` entry. -/
def wfStepHasWho (t : WfStep) : Bool :=
  match t.who with
  | some u => u.id != ""
  | none => false

/-- Project counted in `fms.inProgress`. -/
def fmsCountsInProgress (p : Project) : Bool :=
  !fmsAllDone p && fmsHasInProgress p

/-! ## Checklists (lines 186–225 of the MIS route) -/

/-- A fetched checklist: `status` string (`""` = missing) and a populated
`assignedTo` reference (possibly null). -/
structure Checklist where
  status : String
  assignedTo : Option UserRef
deriving Repr, DecidableEq

/-- Per-person record of the checklist aggregate. -/
structure ClPerson where
  userId : String
  username : String
  email : String
  total : Nat
  done : Nat
  notDone : Nat
deriving Repr, DecidableEq

/-- The checklist aggregate (`checklistStats`). -/
structure ClStats where
  total : Nat
  done : Nat
  notDone : Nat
  byPerson : List (String × ClPerson)
deriving Repr, DecidableEq

/-- Zero-initialised per-person checklist record. -/
def clPersonInit (u : UserRef) : ClPerson :=
  { userId := u.id, username := orDefault u.username "Unknown", email := u.email,
    total := 0, done := 0, notDone := 0 }

/-- Per-person increments of one checklist: `total++`, then `done`/`notDone`
by the binary `status === 'Submitted'` test. -/
def clPersonBump (c : Checklist) (p : ClPerson) : ClPerson :=
  let p1 := { p with total := p.total + 1 }
  if c.status = "Submitted" then { p1 with done := p1.done + 1 }
  else { p1 with notDone := p1.notDone + 1 }

/-- Person-wise part of one checklist iteration. -/
def clPersonStep (l : List (String × ClPerson)) (c : Checklist) :
    List (String × ClPerson) :=
  match c.assignedTo with
  | some u =>
    if u.id ≠ "" then updatePerson l u.id (clPersonInit u) (clPersonBump c) else l
  | none => l

/-- Body of `checklists.forEach`. -/
def clStep (s : ClStats) (c : Checklist) : ClStats :=
  let s1 :=
    if c.status = "Submitted" then { s with done := s.done + 1 }
    else { s with notDone := s.notDone + 1 }
  { s1 with byPerson := clPersonStep s1.byPerson c }

/-- `checklistStats` after the whole `forEach`. -/
def computeChecklistStats (cs : List Checklist) : ClStats :=
  cs.foldl clStep { total := cs.length, done := 0, notDone := 0, byPerson := [] }

/-- Checklist counted as done. -/
def clIsDone (c : Checklist) : Bool := c.status == "Submitted"

/-- Checklist that contributes a `byPerson` entry. -/
def clHasPerson (c : Checklist) : Bool :=
  match c.assignedTo with
  | some u => u.id != ""
  | none => false

/-! ## Month range (lines 22–27 of the MIS route) -/

/-- Gregorian leap-year rule, as implemented by the JS `Date` calendar. -/
def isLeapYear (y : Int) : Bool :=
  (y % 4 == 0 && y % 100 != 0) || y % 400 == 0

/-- Days in month `m` (1-based) of year `y` on the JS `Date` calendar. -/
def daysInMonth (y : Int) (m : Nat) : Nat :=
  match m with
  | 1 => 31
  | 2 => if isLeapYear y then 29 else 28
  | 3 => 31
  | 4 => 30
  | 5 => 31
  | 6 => 30
  | 7 => 31
  | 8 => 31
  | 9 => 30
  | 10 => 31
  | 11 => 30
  | 12 => 31
  | _ => 0

/-- The JS `Date` constructor's two-digit-year rule (ECMA-262
MakeFullYear): an integer year argument in 0–99 is remapped to
`1900 + year`; any other year is taken as given. -/
def jsFullYear (y : Int) : Int :=
  if 0 ≤ y ∧ y ≤ 99 then 1900 + y else y

/-- `new Date(y, monthIndex, d)` (calendar fields only), for the argument
shapes the route produces: the year argument goes through the
two-digit-year remap (`jsFullYear`), any integer `monthIndex`
(out-of-range months roll into adjacent years), and `d = 0` (last day of
the preceding month) or `1 ≤ d ≤ daysInMonth` (that day).  Result is
`(year, month, day)` with `month` 1-based. -/
def mkJsDate (y : Int) (monthIndex : Int) (d : Nat) : Int × Nat × Nat :=
  let fy : Int := jsFullYear y
  let total : Int := fy * 12 + monthIndex
  let ny : Int := total / 12
  let nm : Nat := (total % 12).toNat + 1
  if d = 0 then
    if nm = 1 then (ny - 1, 12, 31)
    else (ny, nm - 1, daysInMonth ny (nm - 1))
  else (ny, nm, d)

/-- A resolved local date-time, as produced by `getMonthRange`. -/
structure DateTime where
  year : Int
  month : Nat
  day : Nat
  hour : Nat
  minute : Nat
  second : Nat
  ms : Nat
deriving Repr, DecidableEq

/-- `getMonthRange(year, month)`: `startDate = new Date(year, month - 1, 1)`
at 00:00:00.000 and `endDate = new Date(year, month, 0, 23, 59, 59, 999)`. -/
def getMonthRange (year month : Int) : DateTime × DateTime :=
  let s := mkJsDate year (month - 1) 1
  let e := mkJsDate year month 0
  ({ year := s.1, month := s.2.1, day := s.2.2, hour := 0, minute := 0,
     second := 0, ms := 0 },
   { year := e.1, month := e.2.1, day := e.2.2, hour := 23, minute := 59,
     second := 59, ms := 999 })

/-! ## Request validation (lines 33–44 of the MIS route) -/

/-- JS `parseInt(s)` with no radix argument: skip leading whitespace, an
optional sign, an optional `0x`/`0X` hex prefix, then a maximal run of
digits of the selected base; `none` models `NaN` (no digit found). -/
def parseInt (s : String) : Option Int :=
  let cs := s.toList.dropWhile Char.isWhitespace
  let signAndRest : Int × List Char :=
    match cs with
    | '-' :: rest => (-1, rest)
    | '+' :: rest => (1, rest)
    | _ => (1, cs)
  let baseAndRest : Nat × List Char :=
    match signAndRest.2 with
    | '0' :: 'x' :: rest => (16, rest)
    | '0' :: 'X' :: rest => (16, rest)
    | _ => (10, signAndRest.2)
  let base := baseAndRest.1
  let isDig : Char → Bool := fun c =>
    if base = 16 then c.isDigit || ('a' ≤ c && c ≤ 'f') || ('A' ≤ c && c ≤ 'F')
    else c.isDigit
  let digits := baseAndRest.2.takeWhile isDig
  if digits.isEmpty then none
  else
    let hv : Char → Nat := fun c =>
      if c.isDigit then c.toNat - '0'.toNat
      else if 'a' ≤ c then c.toNat - 'a'.toNat + 10
      else c.toNat - 'A'.toNat + 10
    some (signAndRest.1 * (digits.foldl (fun acc c => acc * base + hv c) 0 : Nat))

/-- Whether an `Except` result is a success. -/
def exceptIsOk {E A : Type} : Except E A → Bool
  | .ok _ => true
  | .error _ => false

/-- The two 4xx validation failures of the `GET /data` handler. -/
inductive MisError where
  | invalidInput (message : String)
deriving Repr, DecidableEq

/-- The collections the four entity fetches return for the requested month,
plus the unfiltered user directory. -/
structure MisDb where
  users : List UserRef
  tasks : List Task
  projects : List Project
  checklists : List Checklist
  helpTickets : List HelpTicket
deriving Repr, DecidableEq

/-- The JSON document assembled by the `GET /data` handler. -/
structure MisResponse where
  period : DateTime × DateTime
  tasks : TaskStats
  fms : FmsStats
  checklists : ClStats
  helpTickets : HtStats
  users : List UserRef
deriving Repr, DecidableEq

/-- The `GET /data` handler: `!year || !month` guard, `parseInt`, range
check on the month, then the four aggregations. -/
def misHandler (year month : Option String) (db : MisDb) :
    Except MisError MisResponse :=
  let yv := match year with | some y => y | none => ""
  let mv := match month with | some m => m | none => ""
  if yv = "" ∨ mv = "" then .error (.invalidInput "Year and month are required")
  else
    match parseInt yv, parseInt mv with
    | some yearNum, some monthNum =>
      if monthNum < 1 ∨ monthNum > 12 then .error (.invalidInput "Invalid year or month")
      else
        .ok { period := getMonthRange yearNum monthNum,
              tasks := computeTaskStats db.tasks,
              fms := computeFmsStats db.projects,
              checklists := computeChecklistStats db.checklists,
              helpTickets := computeHelpTicketStats db.helpTickets,
              users := db.users }
    | _, _ => .error (.invalidInput "Invalid year or month")

/-- Spec-side notion (for the refutation of the validation claim): a
"numeric" request parameter, i.e. an optional sign followed by one or more
decimal digits and nothing else. -/
def specNumericString (s : String) : Bool :=
  let body :=
    match s.toList with
    | '-' :: rest => rest
    | '+' :: rest => rest
    | other => other
  !body.isEmpty && body.all Char.isDigit

/-- Request rejected by the handler's validation (mirrors the two `400`
guards: missing/empty parameter, `parseInt` NaN, or month out of 1–12). -/
def misRequestInvalid (year month : Option String) : Bool :=
  let yv := match year with | some y => y | none => ""
  let mv := match month with | some m => m | none => ""
  if yv = "" ∨ mv = "" then true
  else
    match parseInt yv, parseInt mv with
    | some _, some monthNum => monthNum < 1 || monthNum > 12
    | _, _ => true

/-! ## Purchase dashboard route (src/server/routes/purchase.js) -/

namespace Purchase

/-- The metrics object of the 500 fallback response. -/
structure Metrics where
  totalIndents : Nat
  approved : Nat
  pending : Nat
  fullyIssued : Nat
  partiallyIssued : Nat
  urgentCount : Nat
  normalCount : Nat
deriving Repr, DecidableEq

/-- All-zero metrics, as hard-coded in the fallback branch. -/
def zeroMetrics : Metrics :=
  { totalIndents := 0, approved := 0, pending := 0, fullyIssued := 0,
    partiallyIssued := 0, urgentCount := 0, normalCount := 0 }

/-- The document returned by `getPurchaseDashboardData()`, treated as an
uninterpreted payload by the route. -/
structure DashboardData where
  raw : String
deriving Repr, DecidableEq

/-- Module state: `dashboardCache` and `cacheTimestamp` (ms since epoch). -/
structure CacheState where
  dashboardCache : Option DashboardData
  cacheTimestamp : Nat
deriving Repr, DecidableEq

/-- `CACHE_DURATION = 5 * 60 * 1000`. -/
def CACHE_DURATION : Nat := 5 * 60 * 1000

/-- The possible responses of `GET /dashboard`. -/
inductive DashResponse where
  /-- `res.json(dashboardCache)` inside the freshness window. -/
  | okMemo (d : DashboardData)
  /-- `res.json(dashboardData)` after a successful fetch. -/
  | okFresh (d : DashboardData)
  /-- `res.json({...dashboardCache, cached: true, cacheAge})` from the
  catch branch when a cache exists. -/
  | okStale (d : DashboardData) (cacheAge : Nat)
  /-- `res.status(500).json({... fallback: true, metrics: zeros ...})`. -/
  | errFallback (message : String) (metrics : Metrics)
deriving Repr, DecidableEq

/-- The `GET /dashboard` handler body.  `now` is `Date.now()` (also used
for `cacheAge`; the two calls are model-identical), `fetch` is the result
of `getPurchaseDashboardData()` (`.error` = the awaited promise threw).
`Math.round(x / 1000)` on a non-negative integer is `(x + 500) / 1000`. -/
def dashboardGet (st : CacheState) (now : Nat) (fetch : Except String DashboardData) :
    DashResponse × CacheState :=
  match st.dashboardCache with
  | some d =>
    if now - st.cacheTimestamp < CACHE_DURATION then (.okMemo d, st)
    else
      match fetch with
      | .ok d2 => (.okFresh d2, ⟨some d2, now⟩)
      | .error _ => (.okStale d ((now - st.cacheTimestamp + 500) / 1000), st)
  | none =>
    match fetch with
    | .ok d2 => (.okFresh d2, ⟨some d2, now⟩)
    | .error e => (.errFallback e zeroMetrics, st)

end Purchase

/-! ## Lemmas and theorems -/

theorem sumCounts_bump (l : List (String × Nat)) (k : String) :
    sumCounts (bump l k) = sumCounts l + 1 := by
  induction l with
  | nil => simp [bump, sumCounts]
  | cons e rest ih =>
    obtain ⟨k', v⟩ := e
    by_cases h : k' = k <;> simp [bump, h, sumCounts] at ih ⊢ <;> omega

theorem sumBy_updatePerson {P : Type} (tot : P → Nat) (l : List (String × P))
    (k : String) (init : P) (f : P → P) (c : Nat)
    (hinit : tot init = 0) (hf : ∀ p, tot (f p) = tot p + c) :
    sumBy tot (updatePerson l k init f) = sumBy tot l + c := by
  induction l with
  | nil => simp [updatePerson, sumBy, hf, hinit]
  | cons e rest ih =>
    obtain ⟨k', v⟩ := e
    by_cases h : k' = k <;> simp [updatePerson, h, sumBy, hf] at ih ⊢ <;> omega

theorem forall_updatePerson {P : Type} (I : P → Prop) (l : List (String × P))
    (k : String) (init : P) (f : P → P)
    (hl : ∀ e ∈ l, I e.2) (hfi : I (f init)) (hf : ∀ p, I p → I (f p)) :
    ∀ e ∈ updatePerson l k init f, I e.2 := by
  induction l with
  | nil =>
    intro e he
    simp only [updatePerson, List.mem_singleton] at he
    subst he
    exact hfi
  | cons hd rest ih =>
    obtain ⟨k', v⟩ := hd
    intro e he
    by_cases h : k' = k
    · simp only [updatePerson, if_pos h, List.mem_cons] at he
      rcases he with rfl | hmem
      · exact hf v (hl _ (List.mem_cons_self _ _))
      · exact hl _ (List.mem_cons_of_mem _ hmem)
    · simp only [updatePerson, if_neg h, List.mem_cons] at he
      rcases he with rfl | hmem
      · exact hl _ (List.mem_cons_self _ _)
      · exact ih (fun e h' => hl _ (List.mem_cons_of_mem _ h')) _ hmem

theorem lookupP_updatePerson_self {P : Type} (l : List (String × P))
    (k : String) (init : P) (f : P → P) :
    lookupP (updatePerson l k init f) k =
      some (f ((lookupP l k).getD init)) := by
  induction l with
  | nil => simp [updatePerson, lookupP]
  | cons e rest ih =>
    obtain ⟨k', v⟩ := e
    by_cases h : k' = k <;> simp [updatePerson, lookupP, h, ih]

theorem lookupP_updatePerson_other {P : Type} (l : List (String × P))
    (k k' : String) (init : P) (f : P → P) (hk : k ≠ k') :
    lookupP (updatePerson l k init f) k' = lookupP l k' := by
  induction l with
  | nil => simp [updatePerson, lookupP, hk]
  | cons hd rest ih =>
    obtain ⟨k0, v⟩ := hd
    by_cases h : k0 = k
    · subst h
      simp [updatePerson, lookupP, hk]
    · simp [updatePerson, lookupP, h, ih]

theorem htStep_total (s : HtStats) (t : HelpTicket) : (htStep s t).total = s.total := by
  simp only [htStep]
  split_ifs <;> rfl

theorem htStep_openCount (s : HtStats) (t : HelpTicket) :
    (htStep s t).openCount = s.openCount + (if htIsOpen t then 1 else 0) := by
  simp only [htStep, htIsOpen]
  split_ifs with h1 h2 h3 <;> simp_all

theorem htStep_inProgress (s : HtStats) (t : HelpTicket) :
    (htStep s t).inProgress = s.inProgress + (if htIsInProgress t then 1 else 0) := by
  simp only [htStep, htIsInProgress]
  split_ifs with h1 h2 h3 <;> simp_all

theorem htStep_closed (s : HtStats) (t : HelpTicket) :
    (htStep s t).closed = s.closed + (if htIsClosed t then 1 else 0) := by
  simp only [htStep, htIsClosed]
  split_ifs with h1 h2 h3 <;> simp_all

theorem htStep_byPerson (s : HtStats) (t : HelpTicket) :
    (htStep s t).byPerson = htPersonStep s.byPerson t := by
  simp only [htStep]
  split_ifs <;> rfl

theorem htFold_total (ts : List HelpTicket) (s : HtStats) :
    (ts.foldl htStep s).total = s.total := by
  induction ts generalizing s with
  | nil => rfl
  | cons t rest ih => simp [List.foldl_cons, ih, htStep_total]

theorem htFold_openCount (ts : List HelpTicket) (s : HtStats) :
    (ts.foldl htStep s).openCount = s.openCount + ts.countP htIsOpen := by
  induction ts generalizing s with
  | nil => simp
  | cons t rest ih =>
    simp [List.foldl_cons, ih, htStep_openCount, List.countP_cons]
    split_ifs <;> omega

theorem htFold_inProgress (ts : List HelpTicket) (s : HtStats) :
    (ts.foldl htStep s).inProgress = s.inProgress + ts.countP htIsInProgress := by
  induction ts generalizing s with
  | nil => simp
  | cons t rest ih =>
    simp [List.foldl_cons, ih, htStep_inProgress, List.countP_cons]
    split_ifs <;> omega

theorem htFold_closed (ts : List HelpTicket) (s : HtStats) :
    (ts.foldl htStep s).closed = s.closed + ts.countP htIsClosed := by
  induction ts generalizing s with
  | nil => simp
  | cons t rest ih =>
    simp [List.foldl_cons, ih, htStep_closed, List.countP_cons]
    split_ifs <;> omega

theorem htFold_byPerson (ts : List HelpTicket) (s : HtStats) :
    (ts.foldl htStep s).byPerson = ts.foldl htPersonStep s.byPerson := by
  induction ts generalizing s with
  | nil => rfl
  | cons t rest ih => simp [List.foldl_cons, ih, htStep_byPerson]

theorem computeHT_total (ts : List HelpTicket) :
    (computeHelpTicketStats ts).total = ts.length := by
  simp [computeHelpTicketStats, htFold_total]

theorem computeHT_openCount (ts : List HelpTicket) :
    (computeHelpTicketStats ts).openCount = ts.countP htIsOpen := by
  simp [computeHelpTicketStats, htFold_openCount]

theorem computeHT_inProgress (ts : List HelpTicket) :
    (computeHelpTicketStats ts).inProgress = ts.countP htIsInProgress := by
  simp [computeHelpTicketStats, htFold_inProgress]

theorem computeHT_closed (ts : List HelpTicket) :
    (computeHelpTicketStats ts).closed = ts.countP htIsClosed := by
  simp [computeHelpTicketStats, htFold_closed]

theorem computeHT_byPerson (ts : List HelpTicket) :
    (computeHelpTicketStats ts).byPerson = ts.foldl htPersonStep [] := by
  simp [computeHelpTicketStats, htFold_byPerson]

theorem htPersonBump_total (t : HelpTicket) (p : HtPerson) :
    (htPersonBump t p).total = p.total + 1 := by
  simp only [htPersonBump]
  split_ifs <;> rfl

theorem htPersonStep_sumTotal (l : List (String × HtPerson)) (t : HelpTicket) :
    sumBy HtPerson.total (htPersonStep l t) =
      sumBy HtPerson.total l + (if htHasPerson t then 1 else 0) := by
  simp only [htPersonStep, htHasPerson]
  by_cases h : htPersonId t = ""
  · simp [h]
  · rw [if_neg h]
    simp only [h, bne_iff_ne, ne_eq, not_false_iff, if_pos]
    exact sumBy_updatePerson _ _ _ _ _ 1 rfl (htPersonBump_total t)

theorem htPersonFold_sumTotal (ts : List HelpTicket) (l : List (String × HtPerson)) :
    sumBy HtPerson.total (ts.foldl htPersonStep l) =
      sumBy HtPerson.total l + ts.countP htHasPerson := by
  induction ts generalizing l with
  | nil => simp
  | cons t rest ih =>
    simp [List.foldl_cons, ih, htPersonStep_sumTotal, List.countP_cons]
    split_ifs <;> omega

theorem computeHT_sumByPersonTotal (ts : List HelpTicket) :
    sumBy HtPerson.total (computeHelpTicketStats ts).byPerson = ts.countP htHasPerson := by
  rw [computeHT_byPerson, htPersonFold_sumTotal]
  simp [sumBy]

theorem htPersonStep_totalAt (l : List (String × HtPerson)) (t : HelpTicket)
    (k : String) (hk : k ≠ "") :
    projAt HtPerson.total (htPersonStep l t) k =
      projAt HtPerson.total l k + (if htAttributedTo k t then 1 else 0) := by
  simp only [htPersonStep, htAttributedTo, beq_iff_eq]
  by_cases hp : htPersonId t = ""
  · simp [hp, Ne.symm hk]
  · rw [if_neg hp]
    by_cases hpk : htPersonId t = k
    · subst hpk
      rw [projAt, lookupP_updatePerson_self]
      cases h : lookupP l (htPersonId t) with
      | none => simp [projAt, h, htPersonBump_total, htPersonInit]
      | some p => simp [projAt, h, htPersonBump_total]
    · simp [projAt, lookupP_updatePerson_other _ _ _ _ _ hpk, hpk]

theorem htPersonBump_closed (t : HelpTicket) (p : HtPerson) :
    (htPersonBump t p).closed = p.closed + (if htIsClosed t then 1 else 0) := by
  simp only [htPersonBump, htIsClosed]
  split_ifs with h1 h2 h3 <;> simp_all

theorem htPersonStep_closedAt (l : List (String × HtPerson)) (t : HelpTicket)
    (k : String) (hk : k ≠ "") :
    projAt HtPerson.closed (htPersonStep l t) k =
      projAt HtPerson.closed l k +
        (if htAttributedTo k t ∧ htIsClosed t then 1 else 0) := by
  simp only [htPersonStep, htAttributedTo, beq_iff_eq]
  by_cases hp : htPersonId t = ""
  · simp [hp, Ne.symm hk]
  · rw [if_neg hp]
    by_cases hpk : htPersonId t = k
    · subst hpk
      rw [projAt, lookupP_updatePerson_self]
      cases h : lookupP l (htPersonId t) with
      | none => simp [projAt, h, htPersonBump_closed, htPersonInit]
      | some p => simp [projAt, h, htPersonBump_closed]
    · simp [projAt, lookupP_updatePerson_other _ _ _ _ _ hpk, hpk]

theorem htPersonFold_totalAt (ts : List HelpTicket) (l : List (String × HtPerson))
    (k : String) (hk : k ≠ "") :
    projAt HtPerson.total (ts.foldl htPersonStep l) k =
      projAt HtPerson.total l k + ts.countP (htAttributedTo k) := by
  induction ts generalizing l with
  | nil => simp
  | cons t rest ih =>
    simp [List.foldl_cons, ih, htPersonStep_totalAt _ _ _ hk, List.countP_cons]
    split_ifs <;> omega

theorem htPersonFold_closedAt (ts : List HelpTicket) (l : List (String × HtPerson))
    (k : String) (hk : k ≠ "") :
    projAt HtPerson.closed (ts.foldl htPersonStep l) k =
      projAt HtPerson.closed l k +
        ts.countP (fun t => htAttributedTo k t && htIsClosed t) := by
  induction ts generalizing l with
  | nil => simp
  | cons t rest ih =>
    simp [List.foldl_cons, ih, htPersonStep_closedAt _ _ _ hk, List.countP_cons]
    split_ifs <;> simp_all <;> omega

theorem computeHT_totalAt (ts : List HelpTicket) (k : String) (hk : k ≠ "") :
    projAt HtPerson.total (computeHelpTicketStats ts).byPerson k =
      ts.countP (htAttributedTo k) := by
  rw [computeHT_byPerson, htPersonFold_totalAt _ _ _ hk]
  simp [projAt, lookupP]

theorem computeHT_closedAt (ts : List HelpTicket) (k : String) (hk : k ≠ "") :
    projAt HtPerson.closed (computeHelpTicketStats ts).byPerson k =
      ts.countP (fun t => htAttributedTo k t && htIsClosed t) := by
  rw [computeHT_byPerson, htPersonFold_closedAt _ _ _ hk]
  simp [projAt, lookupP]

/-- Per-person consistency of one bump, when the status is recognised. -/
theorem htPersonBump_inv (t : HelpTicket) (hrec : htRecognized t = true) (p : HtPerson)
    (hp : p.total = p.openCount + p.inProgress + p.closed) :
    (htPersonBump t p).total =
      (htPersonBump t p).openCount + (htPersonBump t p).inProgress +
        (htPersonBump t p).closed := by
  simp only [htPersonBump]
  split_ifs with h1 h2 h3 <;>
    simp_all [htRecognized, htIsOpen, htIsInProgress, htIsClosed, beq_iff_eq] <;>
    omega

theorem htPersonStep_inv (l : List (String × HtPerson)) (t : HelpTicket)
    (hrec : htRecognized t = true)
    (hl : ∀ e ∈ l, e.2.total = e.2.openCount + e.2.inProgress + e.2.closed) :
    ∀ e ∈ htPersonStep l t,
      e.2.total = e.2.openCount + e.2.inProgress + e.2.closed := by
  simp only [htPersonStep]
  by_cases hp : htPersonId t = ""
  · rw [if_pos hp]
    exact hl
  · rw [if_neg hp]
    exact forall_updatePerson
      (fun p => p.total = p.openCount + p.inProgress + p.closed)
      l (htPersonId t) (htPersonInit t) (htPersonBump t) hl
      (htPersonBump_inv t hrec (htPersonInit t) rfl)
      (fun p hp' => htPersonBump_inv t hrec p hp')

theorem taskStep_total (s : TaskStats) (t : Task) : (taskStep s t).total = s.total := by
  simp only [taskStep]
  split_ifs <;> rfl

theorem taskStep_sumByStatus (s : TaskStats) (t : Task) :
    sumCounts (taskStep s t).byStatus =
      sumCounts s.byStatus + (if taskHasStatus t then 1 else 0) := by
  simp only [taskStep, taskHasStatus, bne_iff_ne, ne_eq]
  split_ifs <;> simp_all [sumCounts_bump]

theorem taskStep_byPerson (s : TaskStats) (t : Task) :
    (taskStep s t).byPerson = taskPersonStep s.byPerson t := by
  simp only [taskStep]
  split_ifs <;> rfl

theorem taskFold_total (ts : List Task) (s : TaskStats) :
    (ts.foldl taskStep s).total = s.total := by
  induction ts generalizing s with
  | nil => rfl
  | cons t rest ih => simp [List.foldl_cons, ih, taskStep_total]

theorem taskFold_sumByStatus (ts : List Task) (s : TaskStats) :
    sumCounts (ts.foldl taskStep s).byStatus =
      sumCounts s.byStatus + ts.countP taskHasStatus := by
  induction ts generalizing s with
  | nil => simp
  | cons t rest ih =>
    simp [List.foldl_cons, ih, taskStep_sumByStatus, List.countP_cons]
    split_ifs <;> omega

theorem taskFold_byPerson (ts : List Task) (s : TaskStats) :
    (ts.foldl taskStep s).byPerson = ts.foldl taskPersonStep s.byPerson := by
  induction ts generalizing s with
  | nil => rfl
  | cons t rest ih => simp [List.foldl_cons, ih, taskStep_byPerson]

theorem computeTask_total (ts : List Task) :
    (computeTaskStats ts).total = ts.length := by
  simp [computeTaskStats, taskFold_total, taskInitStats]

theorem computeTask_sumByStatus (ts : List Task) :
    sumCounts (computeTaskStats ts).byStatus = ts.countP taskHasStatus := by
  rw [computeTaskStats, taskFold_sumByStatus]
  simp [taskInitStats, sumCounts]

theorem computeTask_byPerson (ts : List Task) :
    (computeTaskStats ts).byPerson = ts.foldl taskPersonStep [] := by
  simp [computeTaskStats, taskFold_byPerson, taskInitStats]

theorem taskPersonBump_total (t : Task) (hst : t.status ≠ "total") (p : TaskPerson) :
    (taskPersonBump t p).total = p.total + 1 := by
  simp only [taskPersonBump]
  split_ifs with h1 h2 h3 <;> first
    | rfl
    | (unfold taskPersonStatusBump
       split <;> simp_all)

theorem taskPersonStep_sumTotal (l : List (String × TaskPerson)) (t : Task)
    (hst : t.status ≠ "total") :
    sumBy TaskPerson.total (taskPersonStep l t) =
      sumBy TaskPerson.total l + (if taskHasPerson t then 1 else 0) := by
  obtain ⟨tst, tty, ass⟩ := t
  cases ass with
  | none => simp [taskPersonStep, taskHasPerson]
  | some u =>
    by_cases hu : u.id = ""
    · simp [taskPersonStep, taskHasPerson, hu]
    · rw [show taskPersonStep l ⟨tst, tty, some u⟩ =
            updatePerson l u.id (taskPersonInit u) (taskPersonBump ⟨tst, tty, some u⟩) from
          by simp [taskPersonStep, hu],
        sumBy_updatePerson TaskPerson.total l u.id (taskPersonInit u)
          (taskPersonBump ⟨tst, tty, some u⟩) 1 rfl (taskPersonBump_total _ hst)]
      simp [taskHasPerson, hu]

theorem taskPersonFold_sumTotal (ts : List Task) (l : List (String × TaskPerson))
    (hst : ∀ t ∈ ts, t.status ≠ "total") :
    sumBy TaskPerson.total (ts.foldl taskPersonStep l) =
      sumBy TaskPerson.total l + ts.countP taskHasPerson := by
  induction ts generalizing l with
  | nil => simp
  | cons t rest ih =>
    rw [List.foldl_cons, ih _ (fun t' h' => hst t' (List.mem_cons_of_mem _ h')),
      taskPersonStep_sumTotal _ _ (hst t (List.mem_cons_self _ _)), List.countP_cons]
    split_ifs <;> omega

theorem computeTask_sumByPersonTotal (ts : List Task)
    (hst : ∀ t ∈ ts, t.status ≠ "total") :
    sumBy TaskPerson.total (computeTaskStats ts).byPerson = ts.countP taskHasPerson := by
  rw [computeTask_byPerson, taskPersonFold_sumTotal _ _ hst]
  simp [sumBy]

theorem htPersonFold_inv (ts : List HelpTicket) (l : List (String × HtPerson))
    (hts : ∀ t ∈ ts, htRecognized t = true)
    (hl : ∀ e ∈ l, e.2.total = e.2.openCount + e.2.inProgress + e.2.closed) :
    ∀ e ∈ ts.foldl htPersonStep l,
      e.2.total = e.2.openCount + e.2.inProgress + e.2.closed := by
  induction ts generalizing l with
  | nil => exact hl
  | cons t rest ih =>
    simp only [List.foldl_cons]
    exact ih _ (fun t' h' => hts t' (List.mem_cons_of_mem _ h'))
      (htPersonStep_inv _ _ (hts _ (List.mem_cons_self _ _)) hl)

theorem fmsProjStep_total (s : FmsStats) (p : Project) :
    (fmsProjStep s p).total = s.total := by
  simp only [fmsProjStep]
  split_ifs <;> cases fmsPendingStep p <;> rfl

theorem fmsProjStep_completed (s : FmsStats) (p : Project) :
    (fmsProjStep s p).completed = s.completed + (if fmsAllDone p then 1 else 0) := by
  simp only [fmsProjStep]
  split_ifs <;> cases fmsPendingStep p <;> simp_all

theorem fmsProjStep_inProgress (s : FmsStats) (p : Project) :
    (fmsProjStep s p).inProgress =
      s.inProgress + (if fmsCountsInProgress p then 1 else 0) := by
  simp only [fmsProjStep, fmsCountsInProgress]
  split_ifs <;> cases fmsPendingStep p <;> simp_all

theorem fmsProjStep_byPerson (s : FmsStats) (p : Project) :
    (fmsProjStep s p).byPerson = p.tasks.foldl fmsPersonStepUpd s.byPerson := by
  simp only [fmsProjStep]
  split_ifs <;> cases fmsPendingStep p <;> rfl

theorem fmsFold_total (ps : List Project) (s : FmsStats) :
    (ps.foldl fmsProjStep s).total = s.total := by
  induction ps generalizing s with
  | nil => rfl
  | cons p rest ih => simp [List.foldl_cons, ih, fmsProjStep_total]

theorem fmsFold_completed (ps : List Project) (s : FmsStats) :
    (ps.foldl fmsProjStep s).completed = s.completed + ps.countP fmsAllDone := by
  induction ps generalizing s with
  | nil => simp
  | cons p rest ih =>
    simp [List.foldl_cons, ih, fmsProjStep_completed, List.countP_cons]
    split_ifs <;> omega

theorem fmsFold_inProgress (ps : List Project) (s : FmsStats) :
    (ps.foldl fmsProjStep s).inProgress =
      s.inProgress + ps.countP fmsCountsInProgress := by
  induction ps generalizing s with
  | nil => simp
  | cons p rest ih =>
    simp [List.foldl_cons, ih, fmsProjStep_inProgress, List.countP_cons]
    split_ifs <;> omega

theorem computeFms_total (ps : List Project) :
    (computeFmsStats ps).total = ps.length := by
  simp [computeFmsStats, fmsFold_total]

theorem computeFms_completed (ps : List Project) :
    (computeFmsStats ps).completed = ps.countP fmsAllDone := by
  rw [computeFmsStats, fmsFold_completed]
  simp

theorem computeFms_inProgress (ps : List Project) :
    (computeFmsStats ps).inProgress = ps.countP fmsCountsInProgress := by
  rw [computeFmsStats, fmsFold_inProgress]
  simp

theorem fmsPersonBump_total (t : WfStep) (p : FmsPerson) :
    (fmsPersonBump t p).total = p.total + 1 := by
  simp only [fmsPersonBump]
  split_ifs <;> rfl

theorem fmsPersonStepUpd_sumTotal (l : List (String × FmsPerson)) (t : WfStep) :
    sumBy FmsPerson.total (fmsPersonStepUpd l t) =
      sumBy FmsPerson.total l + (if wfStepHasWho t then 1 else 0) := by
  obtain ⟨n, st, who⟩ := t
  cases who with
  | none => simp [fmsPersonStepUpd, wfStepHasWho]
  | some u =>
    by_cases hu : u.id = ""
    · simp [fmsPersonStepUpd, wfStepHasWho, hu]
    · rw [show fmsPersonStepUpd l ⟨n, st, some u⟩ =
            updatePerson l u.id (fmsPersonInit u) (fmsPersonBump ⟨n, st, some u⟩) from
          by simp [fmsPersonStepUpd, hu],
        sumBy_updatePerson FmsPerson.total l u.id (fmsPersonInit u)
          (fmsPersonBump ⟨n, st, some u⟩) 1 rfl (fmsPersonBump_total _)]
      simp [wfStepHasWho, hu]

theorem fmsPersonTasksFold_sumTotal (steps : List WfStep)
    (l : List (String × FmsPerson)) :
    sumBy FmsPerson.total (steps.foldl fmsPersonStepUpd l) =
      sumBy FmsPerson.total l + steps.countP wfStepHasWho := by
  induction steps generalizing l with
  | nil => simp
  | cons t rest ih =>
    simp [List.foldl_cons, ih, fmsPersonStepUpd_sumTotal, List.countP_cons]
    split_ifs <;> omega

theorem fmsFold_byPerson_sumTotal (ps : List Project) (s : FmsStats) :
    sumBy FmsPerson.total (ps.foldl fmsProjStep s).byPerson =
      sumBy FmsPerson.total s.byPerson +
        (ps.map (fun p => p.tasks.countP wfStepHasWho)).sum := by
  induction ps generalizing s with
  | nil => simp
  | cons p rest ih =>
    simp only [List.foldl_cons, List.map_cons, List.sum_cons]
    rw [ih]
    have hb : (fmsProjStep s p).byPerson = p.tasks.foldl fmsPersonStepUpd s.byPerson :=
      fmsProjStep_byPerson s p
    rw [hb, fmsPersonTasksFold_sumTotal]
    omega

theorem computeFms_sumByPersonTotal (ps : List Project) :
    sumBy FmsPerson.total (computeFmsStats ps).byPerson =
      (ps.map (fun p => p.tasks.countP wfStepHasWho)).sum := by
  rw [computeFmsStats, fmsFold_byPerson_sumTotal]
  simp [sumBy]

theorem fmsPersonBump_inv (t : WfStep) (p : FmsPerson)
    (hp : p.total = p.inProgress + p.completed + p.pendingSteps.length) :
    (fmsPersonBump t p).total =
      (fmsPersonBump t p).inProgress + (fmsPersonBump t p).completed +
        (fmsPersonBump t p).pendingSteps.length := by
  simp only [fmsPersonBump]
  split_ifs <;> simp_all <;> omega

theorem fmsPersonStepUpd_inv (l : List (String × FmsPerson)) (t : WfStep)
    (hl : ∀ e ∈ l, e.2.total = e.2.inProgress + e.2.completed + e.2.pendingSteps.length) :
    ∀ e ∈ fmsPersonStepUpd l t,
      e.2.total = e.2.inProgress + e.2.completed + e.2.pendingSteps.length := by
  obtain ⟨n, st, who⟩ := t
  cases who with
  | none => exact hl
  | some u =>
    by_cases hu : u.id = ""
    · simpa [fmsPersonStepUpd, hu] using hl
    · rw [show fmsPersonStepUpd l ⟨n, st, some u⟩ =
            updatePerson l u.id (fmsPersonInit u) (fmsPersonBump ⟨n, st, some u⟩) from
          by simp [fmsPersonStepUpd, hu]]
      exact forall_updatePerson
        (fun p => p.total = p.inProgress + p.completed + p.pendingSteps.length)
        l u.id (fmsPersonInit u) (fmsPersonBump ⟨n, st, some u⟩) hl
        (fmsPersonBump_inv _ _ rfl) (fun p hp => fmsPersonBump_inv _ p hp)

theorem fmsPersonTasksFold_inv (steps : List WfStep) (l : List (String × FmsPerson))
    (hl : ∀ e ∈ l, e.2.total = e.2.inProgress + e.2.completed + e.2.pendingSteps.length) :
    ∀ e ∈ steps.foldl fmsPersonStepUpd l,
      e.2.total = e.2.inProgress + e.2.completed + e.2.pendingSteps.length := by
  induction steps generalizing l with
  | nil => exact hl
  | cons t rest ih =>
    simp only [List.foldl_cons]
    exact ih _ (fmsPersonStepUpd_inv _ _ hl)

theorem computeFms_person_inv (ps : List Project) :
    ∀ e ∈ (computeFmsStats ps).byPerson,
      e.2.total = e.2.inProgress + e.2.completed + e.2.pendingSteps.length := by
  have h : ∀ s : FmsStats,
      (∀ e ∈ s.byPerson,
        e.2.total = e.2.inProgress + e.2.completed + e.2.pendingSteps.length) →
      ∀ e ∈ (ps.foldl fmsProjStep s).byPerson,
        e.2.total = e.2.inProgress + e.2.completed + e.2.pendingSteps.length := by
    induction ps with
    | nil => exact fun s hs => hs
    | cons p rest ih =>
      intro s hs
      simp only [List.foldl_cons]
      refine ih _ ?_
      rw [fmsProjStep_byPerson]
      exact fmsPersonTasksFold_inv _ _ hs
  exact h _ (by simp)

theorem clStep_total (s : ClStats) (c : Checklist) : (clStep s c).total = s.total := by
  simp only [clStep]
  split_ifs <;> rfl

theorem clStep_done (s : ClStats) (c : Checklist) :
    (clStep s c).done = s.done + (if clIsDone c then 1 else 0) := by
  simp only [clStep, clIsDone]
  split_ifs <;> simp_all

theorem clStep_notDone (s : ClStats) (c : Checklist) :
    (clStep s c).notDone = s.notDone + (if clIsDone c then 0 else 1) := by
  simp only [clStep, clIsDone]
  split_ifs <;> simp_all

theorem clStep_byPerson (s : ClStats) (c : Checklist) :
    (clStep s c).byPerson = clPersonStep s.byPerson c := by
  simp only [clStep]
  split_ifs <;> rfl

theorem clFold_total (cs : List Checklist) (s : ClStats) :
    (cs.foldl clStep s).total = s.total := by
  induction cs generalizing s with
  | nil => rfl
  | cons c rest ih => simp [List.foldl_cons, ih, clStep_total]

theorem clFold_done (cs : List Checklist) (s : ClStats) :
    (cs.foldl clStep s).done = s.done + cs.countP clIsDone := by
  induction cs generalizing s with
  | nil => simp
  | cons c rest ih =>
    simp [List.foldl_cons, ih, clStep_done, List.countP_cons]
    split_ifs <;> omega

theorem clFold_notDone (cs : List Checklist) (s : ClStats) :
    (cs.foldl clStep s).notDone = s.notDone + cs.countP (fun c => !clIsDone c) := by
  induction cs generalizing s with
  | nil => simp
  | cons c rest ih =>
    simp [List.foldl_cons, ih, clStep_notDone, List.countP_cons]
    split_ifs <;> simp_all <;> omega

theorem computeCl_total (cs : List Checklist) :
    (computeChecklistStats cs).total = cs.length := by
  simp [computeChecklistStats, clFold_total]

theorem computeCl_done (cs : List Checklist) :
    (computeChecklistStats cs).done = cs.countP clIsDone := by
  rw [computeChecklistStats, clFold_done]
  simp

theorem computeCl_notDone (cs : List Checklist) :
    (computeChecklistStats cs).notDone = cs.countP (fun c => !clIsDone c) := by
  rw [computeChecklistStats, clFold_notDone]
  simp

theorem clPersonBump_total (c : Checklist) (p : ClPerson) :
    (clPersonBump c p).total = p.total + 1 := by
  simp only [clPersonBump]
  split_ifs <;> rfl

theorem clPersonStep_sumTotal (l : List (String × ClPerson)) (c : Checklist) :
    sumBy ClPerson.total (clPersonStep l c) =
      sumBy ClPerson.total l + (if clHasPerson c then 1 else 0) := by
  obtain ⟨st, ass⟩ := c
  cases ass with
  | none => simp [clPersonStep, clHasPerson]
  | some u =>
    by_cases hu : u.id = ""
    · simp [clPersonStep, clHasPerson, hu]
    · rw [show clPersonStep l ⟨st, some u⟩ =
            updatePerson l u.id (clPersonInit u) (clPersonBump ⟨st, some u⟩) from
          by simp [clPersonStep, hu],
        sumBy_updatePerson ClPerson.total l u.id (clPersonInit u)
          (clPersonBump ⟨st, some u⟩) 1 rfl (clPersonBump_total _)]
      simp [clHasPerson, hu]

theorem clPersonFold_sumTotal (cs : List Checklist) (l : List (String × ClPerson)) :
    sumBy ClPerson.total (cs.foldl clPersonStep l) =
      sumBy ClPerson.total l + cs.countP clHasPerson := by
  induction cs generalizing l with
  | nil => simp
  | cons c rest ih =>
    simp [List.foldl_cons, ih, clPersonStep_sumTotal, List.countP_cons]
    split_ifs <;> omega

theorem clFold_byPerson (cs : List Checklist) (s : ClStats) :
    (cs.foldl clStep s).byPerson = cs.foldl clPersonStep s.byPerson := by
  induction cs generalizing s with
  | nil => rfl
  | cons c rest ih => simp [List.foldl_cons, ih, clStep_byPerson]

theorem computeCl_sumByPersonTotal (cs : List Checklist) :
    sumBy ClPerson.total (computeChecklistStats cs).byPerson = cs.countP clHasPerson := by
  rw [computeChecklistStats, clFold_byPerson, clPersonFold_sumTotal]
  simp [sumBy]

theorem clPersonBump_inv (c : Checklist) (p : ClPerson)
    (hp : p.total = p.done + p.notDone) :
    (clPersonBump c p).total = (clPersonBump c p).done + (clPersonBump c p).notDone := by
  simp only [clPersonBump]
  split_ifs <;> simp_all <;> omega

theorem clPersonStep_inv (l : List (String × ClPerson)) (c : Checklist)
    (hl : ∀ e ∈ l, e.2.total = e.2.done + e.2.notDone) :
    ∀ e ∈ clPersonStep l c, e.2.total = e.2.done + e.2.notDone := by
  obtain ⟨st, ass⟩ := c
  cases ass with
  | none => exact hl
  | some u =>
    by_cases hu : u.id = ""
    · simpa [clPersonStep, hu] using hl
    · rw [show clPersonStep l ⟨st, some u⟩ =
            updatePerson l u.id (clPersonInit u) (clPersonBump ⟨st, some u⟩) from
          by simp [clPersonStep, hu]]
      exact forall_updatePerson (fun p => p.total = p.done + p.notDone)
        l u.id (clPersonInit u) (clPersonBump ⟨st, some u⟩) hl
        (clPersonBump_inv _ _ rfl) (fun p hp => clPersonBump_inv _ p hp)

theorem computeCl_person_inv (cs : List Checklist) :
    ∀ e ∈ (computeChecklistStats cs).byPerson, e.2.total = e.2.done + e.2.notDone := by
  rw [computeChecklistStats, clFold_byPerson]
  have h : ∀ l : List (String × ClPerson),
      (∀ e ∈ l, e.2.total = e.2.done + e.2.notDone) →
      ∀ e ∈ cs.foldl clPersonStep l, e.2.total = e.2.done + e.2.notDone := by
    induction cs with
    | nil => exact fun l hl => hl
    | cons c rest ih =>
      intro l hl
      simp only [List.foldl_cons]
      exact ih _ (clPersonStep_inv _ _ hl)
  exact h _ (by simp)

theorem countP_not_add {A : Type} (p : A → Bool) (l : List A) :
    l.countP p + l.countP (fun a => !p a) = l.length := by
  induction l with
  | nil => simp
  | cons a rest ih =>
    simp only [List.countP_cons, List.length_cons]
    cases h : p a <;> simp [h] <;> omega

theorem mkJsDate_start (y m : Int) (h1 : 1 ≤ m) (h2 : m ≤ 12) :
    mkJsDate y (m - 1) 1 = (jsFullYear y, m.toNat, 1) := by
  have hdiv : (jsFullYear y * 12 + (m - 1)) / 12 = jsFullYear y := by omega
  have hmod : ((jsFullYear y * 12 + (m - 1)) % 12).toNat + 1 = m.toNat := by omega
  simp [mkJsDate, hdiv, hmod]

theorem mkJsDate_end_lt (y m : Int) (h1 : 1 ≤ m) (h2 : m ≤ 11) :
    mkJsDate y m 0 = (jsFullYear y, m.toNat, daysInMonth (jsFullYear y) m.toNat) := by
  have hdiv : (jsFullYear y * 12 + m) / 12 = jsFullYear y := by omega
  have hmod : ((jsFullYear y * 12 + m) % 12).toNat + 1 = m.toNat + 1 := by omega
  have hne : ¬ (m.toNat + 1 = 1) := by omega
  simp [mkJsDate, hdiv, hmod, hne]

theorem mkJsDate_end_12 (y : Int) : mkJsDate y 12 0 = (jsFullYear y, 12, 31) := by
  have hdiv : (jsFullYear y * 12 + 12) / 12 = jsFullYear y + 1 := by omega
  have hmod : ((jsFullYear y * 12 + 12) % 12).toNat + 1 = 1 := by omega
  simp [mkJsDate, hdiv, hmod]

theorem getMonthRange_spec (y m : Int) (h1 : 1 ≤ m) (h2 : m ≤ 12) :
    getMonthRange y m =
      (⟨jsFullYear y, m.toNat, 1, 0, 0, 0, 0⟩,
       ⟨jsFullYear y, m.toNat, daysInMonth (jsFullYear y) m.toNat, 23, 59, 59, 999⟩) := by
  by_cases h12 : m = 12
  · subst h12
    have hs := mkJsDate_start y 12 (by norm_num) (by norm_num)
    norm_num at hs
    have he := mkJsDate_end_12 y
    simp [getMonthRange, hs, he, daysInMonth]
  · have hs := mkJsDate_start y m h1 h2
    have he := mkJsDate_end_lt y m h1 (by omega)
    simp [getMonthRange, hs, he]

theorem htBucket_exclusive (t : HelpTicket) :
    (if htIsOpen t then 1 else 0) + (if htIsInProgress t then 1 else 0) +
      (if htIsClosed t then (1 : Nat) else 0) =
      (if htRecognized t then 1 else 0) := by
  simp only [htRecognized, htIsOpen, htIsInProgress, htIsClosed]
  by_cases h1 : htNormStatus t = "open" <;>
    by_cases h2 : htNormStatus t = "in progress" <;>
    by_cases h3 : htNormStatus t = "closed" <;>
    by_cases h4 : htNormStatus t = "verified & closed" <;>
    simp_all

theorem ht_count_partition (ts : List HelpTicket)
    (h : ∀ t ∈ ts, htRecognized t = true) :
    ts.countP htIsOpen + ts.countP htIsInProgress + ts.countP htIsClosed =
      ts.length := by
  induction ts with
  | nil => simp
  | cons t rest ih =>
    have hx := htBucket_exclusive t
    rw [h t (List.mem_cons_self _ _), if_pos rfl] at hx
    have ihr := ih (fun t' h' => h t' (List.mem_cons_of_mem _ h'))
    simp only [List.countP_cons, List.length_cons]
    split_ifs at hx ⊢ <;> omega

theorem taskPersonStatusBump_effect (st : String) (h1 : st ≠ "total")
    (h2 : st ≠ "oneOff") (h3 : st ≠ "cyclic") (h4 : st ≠ "userId")
    (h5 : st ≠ "username") (h6 : st ≠ "email") (p : TaskPerson) :
    (taskPersonStatusBump st p).total = p.total ∧
    (taskPersonStatusBump st p).pending + (taskPersonStatusBump st p).inProgress +
        (taskPersonStatusBump st p).completed + (taskPersonStatusBump st p).overdue +
        sumCounts (taskPersonStatusBump st p).extra =
      p.pending + p.inProgress + p.completed + p.overdue + sumCounts p.extra + 1 := by
  unfold taskPersonStatusBump
  split <;> simp_all [sumCounts_bump] <;> omega

theorem taskPersonBump_inv (t : Task) (hsafe : taskStatusSafe t = true) (p : TaskPerson)
    (hp : p.total =
      p.pending + p.inProgress + p.completed + p.overdue + sumCounts p.extra) :
    (taskPersonBump t p).total =
      (taskPersonBump t p).pending + (taskPersonBump t p).inProgress +
        (taskPersonBump t p).completed + (taskPersonBump t p).overdue +
        sumCounts (taskPersonBump t p).extra := by
  simp only [taskStatusSafe, Bool.and_eq_true, bne_iff_ne, ne_eq] at hsafe
  obtain ⟨⟨⟨⟨⟨⟨hs0, hs1⟩, hs2⟩, hs3⟩, hs4⟩, hs5⟩, hs6⟩ := hsafe
  simp only [taskPersonBump]
  rw [if_pos (show t.status ≠ "" from hs0)]
  by_cases hty : t.taskType = "one-time"
  · rw [if_pos hty]
    obtain ⟨he1, he2⟩ := taskPersonStatusBump_effect t.status hs1 hs2 hs3 hs4 hs5 hs6
      { p with total := p.total + 1, oneOff := p.oneOff + 1 }
    rw [he1, he2]
    simp
    omega
  · rw [if_neg hty]
    obtain ⟨he1, he2⟩ := taskPersonStatusBump_effect t.status hs1 hs2 hs3 hs4 hs5 hs6
      { p with total := p.total + 1, cyclic := p.cyclic + 1 }
    rw [he1, he2]
    simp
    omega

theorem taskPersonStep_inv (l : List (String × TaskPerson)) (t : Task)
    (hsafe : taskStatusSafe t = true)
    (hl : ∀ e ∈ l, e.2.total =
      e.2.pending + e.2.inProgress + e.2.completed + e.2.overdue + sumCounts e.2.extra) :
    ∀ e ∈ taskPersonStep l t,
      e.2.total =
        e.2.pending + e.2.inProgress + e.2.completed + e.2.overdue +
          sumCounts e.2.extra := by
  obtain ⟨tst, tty, ass⟩ := t
  cases ass with
  | none => exact hl
  | some u =>
    by_cases hu : u.id = ""
    · simpa [taskPersonStep, hu] using hl
    · rw [show taskPersonStep l ⟨tst, tty, some u⟩ =
            updatePerson l u.id (taskPersonInit u) (taskPersonBump ⟨tst, tty, some u⟩) from
          by simp [taskPersonStep, hu]]
      exact forall_updatePerson
        (fun p => p.total =
          p.pending + p.inProgress + p.completed + p.overdue + sumCounts p.extra)
        l u.id (taskPersonInit u) (taskPersonBump ⟨tst, tty, some u⟩) hl
        (taskPersonBump_inv _ hsafe _ rfl) (fun p hp => taskPersonBump_inv _ hsafe p hp)

theorem computeTask_person_inv (ts : List Task)
    (hsafe : ∀ t ∈ ts, taskStatusSafe t = true) :
    ∀ e ∈ (computeTaskStats ts).byPerson,
      e.2.total =
        e.2.pending + e.2.inProgress + e.2.completed + e.2.overdue +
          sumCounts e.2.extra := by
  rw [computeTask_byPerson]
  have h : ∀ l : List (String × TaskPerson),
      (∀ t ∈ ts, taskStatusSafe t = true) →
      (∀ e ∈ l, e.2.total =
        e.2.pending + e.2.inProgress + e.2.completed + e.2.overdue + sumCounts e.2.extra) →
      ∀ e ∈ ts.foldl taskPersonStep l,
        e.2.total =
          e.2.pending + e.2.inProgress + e.2.completed + e.2.overdue +
            sumCounts e.2.extra := by
    clear hsafe
    induction ts with
    | nil => exact fun l _ hl => hl
    | cons t rest ih =>
      intro l hs hl
      simp only [List.foldl_cons]
      exact ih _ (fun t' h' => hs t' (List.mem_cons_of_mem _ h'))
        (taskPersonStep_inv _ _ (hs t (List.mem_cons_self _ _)) hl)
  exact h _ hsafe (by simp)

theorem computeHT_person_inv (ts : List HelpTicket)
    (hrec : ∀ t ∈ ts, htRecognized t = true) :
    ∀ e ∈ (computeHelpTicketStats ts).byPerson,
      e.2.total = e.2.openCount + e.2.inProgress + e.2.closed := by
  rw [computeHT_byPerson]
  exact htPersonFold_inv ts [] hrec (by simp)

theorem countP_disjoint_le {A : Type} (p q : A → Bool) (l : List A)
    (h : ∀ a ∈ l, ¬(p a = true ∧ q a = true)) :
    l.countP p + l.countP q ≤ l.length := by
  induction l with
  | nil => simp
  | cons a rest ih =>
    have ha := h a (List.mem_cons_self _ _)
    have ihr := ih (fun a' h' => h a' (List.mem_cons_of_mem _ h'))
    simp only [List.countP_cons, List.length_cons]
    cases hp : p a <;> cases hq : q a <;> simp_all <;> omega

theorem fmsAllDone_iff (p : Project) :
    fmsAllDone p = true ↔ ∀ t ∈ p.tasks, t.status = "Done" := by
  simp [fmsAllDone, List.all_eq_true]

theorem fmsHasInProgress_iff (p : Project) :
    fmsHasInProgress p = true ↔
      ∃ t ∈ p.tasks, t.status = "In Progress" ∨ t.status = "Pending" := by
  simp [fmsHasInProgress, List.any_eq_true]

/-- C4 counterexample: the JS `Date` constructor remaps years 0–99 to
`1900 + year`, so the accepted request year = 0, month = 2 yields a period
in February 1900 (28 days, 1900 not being a leap year), not in year 0
(which, divisible by 400, would have 29); year = 24 is likewise remapped
to 1924.  The period is not "of the same year" as the input. -/
theorem getMonthRange_twoDigitYear_cex :
    (getMonthRange 0 2).1 = ⟨1900, 2, 1, 0, 0, 0, 0⟩ ∧
    (getMonthRange 0 2).2 = ⟨1900, 2, 28, 23, 59, 59, 999⟩ ∧
    (0 : Int) ≠ 1900 ∧ isLeapYear 0 = true ∧
    (getMonthRange 24 2).2 = ⟨1924, 2, 29, 23, 59, 59, 999⟩ := by
  refine ⟨by decide, by decide, by decide, by decide, by decide⟩

/-- C4 (amended): for every `(year, month)` with `1 ≤ month ≤ 12`, the
resolved period starts at local midnight on day 1 and ends at 23:59:59.999
on the last calendar day (`daysInMonth`) of that month in the JS-effective
year `jsFullYear year`: years 0–99 are remapped to `1900 + year`, every
other year is used as given (so no leakage into adjacent months, and for
years outside 0–99 the period is in the requested year). -/
theorem getMonthRange_bounds (y m : Int) (h1 : 1 ≤ m) (h2 : m ≤ 12) :
    (getMonthRange y m).1 = ⟨jsFullYear y, m.toNat, 1, 0, 0, 0, 0⟩ ∧
    (getMonthRange y m).2 =
      ⟨jsFullYear y, m.toNat, daysInMonth (jsFullYear y) m.toNat, 23, 59, 59, 999⟩ ∧
    (¬(0 ≤ y ∧ y ≤ 99) → jsFullYear y = y) := by
  have h := getMonthRange_spec y m h1 h2
  rw [h]
  exact ⟨rfl, rfl, fun hy => by simp [jsFullYear, hy]⟩

/-- C4 witness: February 2024 (year outside 0–99, so kept as given; leap
year) resolves to 2024-02-01 00:00:00.000 through 2024-02-29 23:59:59.999. -/
theorem getMonthRange_bounds_witness :
    (1 : Int) ≤ 2 ∧ (2 : Int) ≤ 12 ∧ jsFullYear 2024 = 2024 ∧
    (getMonthRange 2024 2).1 = ⟨2024, 2, 1, 0, 0, 0, 0⟩ ∧
    (getMonthRange 2024 2).2 = ⟨2024, 2, 29, 23, 59, 59, 999⟩ := by
  refine ⟨by norm_num, by norm_num, by decide, ?_, ?_⟩
  · have h := (getMonthRange_bounds 2024 2 (by norm_num) (by norm_num)).1
    rw [h]
    decide
  · have h := (getMonthRange_bounds 2024 2 (by norm_num) (by norm_num)).2.1
    rw [h]
    decide

/-- C3 counterexample: a workflow instance with no steps vacuously has all
steps `Not Started`, yet it is counted in `fms.completed` (not "in neither
bucket" as the claim, read literally, requires). -/
theorem fms_allNotStarted_cex :
    (∀ t ∈ (Project.mk []).tasks, t.status = "Not Started") ∧
    (computeFmsStats [Project.mk []]).completed = 1 ∧
    (computeFmsStats [Project.mk []]).inProgress = 0 := by
  refine ⟨by simp, by decide, by decide⟩

/-- C3 amended: an instance with every step `Done` is counted in
`fms.completed`; an instance that is not all-`Done` with at least one step
`Pending`/`In Progress` is counted in `fms.inProgress`; an instance with
at least one step and all steps `Not Started` is counted in neither. -/
theorem fms_classification (ps : List Project) (p : Project) :
    ((∀ t ∈ p.tasks, t.status = "Done") →
      (computeFmsStats (ps ++ [p])).completed = (computeFmsStats ps).completed + 1 ∧
      (computeFmsStats (ps ++ [p])).inProgress = (computeFmsStats ps).inProgress) ∧
    ((¬ ∀ t ∈ p.tasks, t.status = "Done") →
      (∃ t ∈ p.tasks, t.status = "In Progress" ∨ t.status = "Pending") →
      (computeFmsStats (ps ++ [p])).inProgress = (computeFmsStats ps).inProgress + 1 ∧
      (computeFmsStats (ps ++ [p])).completed = (computeFmsStats ps).completed) ∧
    (p.tasks ≠ [] → (∀ t ∈ p.tasks, t.status = "Not Started") →
      (computeFmsStats (ps ++ [p])).completed = (computeFmsStats ps).completed ∧
      (computeFmsStats (ps ++ [p])).inProgress = (computeFmsStats ps).inProgress) := by
  refine ⟨?_, ?_, ?_⟩
  · intro hall
    have hd : fmsAllDone p = true := (fmsAllDone_iff p).mpr hall
    constructor
    · simp [computeFms_completed, List.countP_append, hd]
    · simp [computeFms_inProgress, List.countP_append, fmsCountsInProgress, hd]
  · intro hnall hex
    have hd : fmsAllDone p = false := by
      cases h : fmsAllDone p
      · rfl
      · exact absurd ((fmsAllDone_iff p).mp h) hnall
    have hip : fmsHasInProgress p = true := (fmsHasInProgress_iff p).mpr (by
      obtain ⟨t, ht, hst⟩ := hex
      exact ⟨t, ht, hst⟩)
    constructor
    · simp [computeFms_inProgress, List.countP_append, fmsCountsInProgress, hd, hip]
    · simp [computeFms_completed, List.countP_append, hd]
  · intro hne hns
    obtain ⟨t0, hts⟩ : ∃ t0, t0 ∈ p.tasks := by
      cases h : p.tasks with
      | nil => exact absurd h hne
      | cons a rest => exact ⟨a, by simp [h]⟩
    have hd : fmsAllDone p = false := by
      cases h : fmsAllDone p
      · rfl
      · have := (fmsAllDone_iff p).mp h t0 hts
        rw [hns t0 hts] at this
        simp at this
    have hip : fmsHasInProgress p = false := by
      cases h : fmsHasInProgress p
      · rfl
      · obtain ⟨t, ht, hst⟩ := (fmsHasInProgress_iff p).mp h
        rw [hns t ht] at hst
        rcases hst with h' | h' <;> simp at h'
    constructor
    · simp [computeFms_completed, List.countP_append, hd]
    · simp [computeFms_inProgress, List.countP_append, fmsCountsInProgress, hd, hip]

/-- C3 witness: on concrete instances — all-Done, mixed
Done/Pending, and all-Not-Started — the three clauses hold. -/
theorem fms_classification_witness :
    (∀ t ∈ (Project.mk [⟨1, "Done", none⟩]).tasks, t.status = "Done") ∧
    (computeFmsStats [Project.mk [⟨1, "Done", none⟩]]).completed =
      (computeFmsStats []).completed + 1 ∧
    (computeFmsStats
        ([] ++ [Project.mk [⟨1, "Done", none⟩, ⟨2, "Pending", none⟩]])).inProgress =
      (computeFmsStats []).inProgress + 1 ∧
    (computeFmsStats ([] ++ [Project.mk [⟨1, "Not Started", none⟩]])).completed =
      (computeFmsStats []).completed ∧
    (computeFmsStats ([] ++ [Project.mk [⟨1, "Not Started", none⟩]])).inProgress =
      (computeFmsStats []).inProgress := by
  refine ⟨by decide, ?_, ?_, ?_, ?_⟩
  · have h := (fms_classification [] (Project.mk [⟨1, "Done", none⟩])).1 (by decide)
    simpa using h.1
  · have h := (fms_classification []
      (Project.mk [⟨1, "Done", none⟩, ⟨2, "Pending", none⟩])).2.1 (by decide) (by decide)
    exact h.1
  · exact ((fms_classification [] (Project.mk [⟨1, "Not Started", none⟩])).2.2
      (by decide) (by decide)).1
  · exact ((fms_classification [] (Project.mk [⟨1, "Not Started", none⟩])).2.2
      (by decide) (by decide)).2

/-- C9: a workflow instance with zero steps satisfies the vacuous
`every`-Done check and is counted in `fms.completed`. -/
theorem fms_zeroSteps_completed (ps : List Project) (p : Project) (h : p.tasks = []) :
    fmsAllDone p = true ∧
    (computeFmsStats (ps ++ [p])).completed = (computeFmsStats ps).completed + 1 := by
  have hd : fmsAllDone p = true := by simp [fmsAllDone, h]
  refine ⟨hd, ?_⟩
  simp [computeFms_completed, List.countP_append, hd]

/-- C9 witness: the zero-step instance appended to the empty collection is
counted as completed. -/
theorem fms_zeroSteps_completed_witness :
    (Project.mk []).tasks = [] ∧
    (fmsAllDone (Project.mk []) = true ∧
      (computeFmsStats ([] ++ [Project.mk []])).completed =
        (computeFmsStats []).completed + 1) :=
  ⟨rfl, fms_zeroSteps_completed [] (Project.mk []) rfl⟩

/-- C10: in the purchase dashboard handler, a failed upstream fetch with a
non-null (necessarily stale, else no fetch happens) cache returns the
cached document as a success (`cached: true` with `cacheAge`), leaving the
cache untouched; only with no cache does the failure surface as the 500
zero-valued fallback. -/
theorem purchase_dashboard_fallback (st : Purchase.CacheState) (now : Nat)
    (e : String) :
    (∀ d, st.dashboardCache = some d →
      ¬(now - st.cacheTimestamp < Purchase.CACHE_DURATION) →
      Purchase.dashboardGet st now (.error e) =
        (.okStale d ((now - st.cacheTimestamp + 500) / 1000), st)) ∧
    (st.dashboardCache = none →
      Purchase.dashboardGet st now (.error e) =
        (.errFallback e Purchase.zeroMetrics, st)) := by
  constructor
  · intro d hd hstale
    simp [Purchase.dashboardGet, hd, hstale]
  · intro hd
    simp [Purchase.dashboardGet, hd]

/-- C10 witness: concrete stale-cache and no-cache states. -/
theorem purchase_dashboard_fallback_witness :
    ((⟨some ⟨"data"⟩, 0⟩ : Purchase.CacheState).dashboardCache = some ⟨"data"⟩ ∧
      ¬((600000 : Nat) - 0 < Purchase.CACHE_DURATION) ∧
      Purchase.dashboardGet ⟨some ⟨"data"⟩, 0⟩ 600000 (.error "boom") =
        (.okStale ⟨"data"⟩ 600, ⟨some ⟨"data"⟩, 0⟩)) ∧
    ((⟨none, 0⟩ : Purchase.CacheState).dashboardCache = none ∧
      Purchase.dashboardGet ⟨none, 0⟩ 600000 (.error "boom") =
        (.errFallback "boom" Purchase.zeroMetrics, ⟨none, 0⟩)) := by
  refine ⟨⟨rfl, by decide, ?_⟩, ⟨rfl, ?_⟩⟩
  · have h := (purchase_dashboard_fallback ⟨some ⟨"data"⟩, 0⟩ 600000 "boom").1
      ⟨"data"⟩ rfl (by decide)
    simpa using h
  · exact (purchase_dashboard_fallback ⟨none, 0⟩ 600000 "boom").2 rfl

/-- C1 counterexample: one workflow instance with two steps, both with a
resolvable `who`.  The fms aggregate total is the instance count (1), but
the per-person totals count steps, so they sum to 2; no choice of
"records without an assignee" (a count ≥ 0) can make `1 = 2 + c`. -/
theorem fms_total_vs_personSum_cex :
    (computeFmsStats
        [Project.mk [⟨1, "Done", some ⟨"u1", "A", "a"⟩⟩,
                     ⟨2, "Pending", some ⟨"u2", "B", "b"⟩⟩]]).total = 1 ∧
    sumBy FmsPerson.total
        (computeFmsStats
          [Project.mk [⟨1, "Done", some ⟨"u1", "A", "a"⟩⟩,
                       ⟨2, "Pending", some ⟨"u2", "B", "b"⟩⟩]]).byPerson = 2 := by
  constructor <;> decide

/-- C1 (amended): for tasks, checklists and help tickets, the total equals
the sum of `byPerson[].total` plus the number of records with no
resolvable assignee (for tasks, provided no task's status is the literal
`"total"`, which would collide with the per-person total counter).  For
fms the per-person totals count assigned steps: their sum is the number of
steps with a resolvable `who`, while `total` stays the instance count. -/
theorem aggregate_total_vs_personSum :
    (∀ ts : List Task, (∀ t ∈ ts, t.status ≠ "total") →
      (computeTaskStats ts).total =
        sumBy TaskPerson.total (computeTaskStats ts).byPerson +
          ts.countP (fun t => !taskHasPerson t)) ∧
    (∀ cs : List Checklist,
      (computeChecklistStats cs).total =
        sumBy ClPerson.total (computeChecklistStats cs).byPerson +
          cs.countP (fun c => !clHasPerson c)) ∧
    (∀ hs : List HelpTicket,
      (computeHelpTicketStats hs).total =
        sumBy HtPerson.total (computeHelpTicketStats hs).byPerson +
          hs.countP (fun t => !htHasPerson t)) ∧
    (∀ ps : List Project,
      sumBy FmsPerson.total (computeFmsStats ps).byPerson =
        (ps.map (fun p => p.tasks.countP wfStepHasWho)).sum ∧
      (computeFmsStats ps).total = ps.length) := by
  refine ⟨?_, ?_, ?_, ?_⟩
  · intro ts hst
    rw [computeTask_total, computeTask_sumByPersonTotal ts hst, ← countP_not_add taskHasPerson ts]
  · intro cs
    rw [computeCl_total, computeCl_sumByPersonTotal, ← countP_not_add clHasPerson cs]
  · intro hs
    rw [computeHT_total, computeHT_sumByPersonTotal, ← countP_not_add htHasPerson hs]
  · intro ps
    exact ⟨computeFms_sumByPersonTotal ps, computeFms_total ps⟩

/-- C1 witness: the amended identities evaluated on concrete one-record
collections. -/
theorem aggregate_total_vs_personSum_witness :
    (([⟨"completed", "one-time", some ⟨"u1", "A", "a"⟩⟩] : List Task).all
        (fun t => t.status != "total") = true) ∧
    (computeTaskStats [⟨"completed", "one-time", some ⟨"u1", "A", "a"⟩⟩]).total =
      sumBy TaskPerson.total
          (computeTaskStats [⟨"completed", "one-time", some ⟨"u1", "A", "a"⟩⟩]).byPerson +
        ([⟨"completed", "one-time", some ⟨"u1", "A", "a"⟩⟩] : List Task).countP
          (fun t => !taskHasPerson t) ∧
    (computeChecklistStats [⟨"Submitted", none⟩]).total =
      sumBy ClPerson.total (computeChecklistStats [⟨"Submitted", none⟩]).byPerson +
        ([⟨"Submitted", none⟩] : List Checklist).countP (fun c => !clHasPerson c) ∧
    (computeHelpTicketStats [⟨some "open", none, none⟩]).total =
      sumBy HtPerson.total (computeHelpTicketStats [⟨some "open", none, none⟩]).byPerson +
        ([⟨some "open", none, none⟩] : List HelpTicket).countP (fun t => !htHasPerson t) ∧
    sumBy FmsPerson.total
        (computeFmsStats [Project.mk [⟨1, "Done", some ⟨"u1", "A", "a"⟩⟩]]).byPerson =
      ([Project.mk [⟨1, "Done", some ⟨"u1", "A", "a"⟩⟩]].map
        (fun p => p.tasks.countP wfStepHasWho)).sum := by
  refine ⟨by decide, ?_, ?_, ?_, ?_⟩
  · exact aggregate_total_vs_personSum.1 _ (by decide)
  · exact aggregate_total_vs_personSum.2.1 _
  · exact aggregate_total_vs_personSum.2.2.1 _
  · exact (aggregate_total_vs_personSum.2.2.2 _).1

/-- C2 counterexample: a help ticket whose status is not one of the
recognised values is counted in `total` but in no status bucket, and the
help-ticket histogram has no dynamically added buckets at all. -/
theorem ht_total_vs_histogram_cex :
    (computeHelpTicketStats [⟨some "weird", none, none⟩]).total = 1 ∧
    (computeHelpTicketStats [⟨some "weird", none, none⟩]).openCount = 0 ∧
    (computeHelpTicketStats [⟨some "weird", none, none⟩]).inProgress = 0 ∧
    (computeHelpTicketStats [⟨some "weird", none, none⟩]).closed = 0 := by
  refine ⟨by decide, by decide, by decide, by decide⟩

/-- C2 (amended): the total-equals-histogram-sum identity holds for tasks
when every task has a non-empty status (the task histogram does grow
dynamic buckets for unrecognised statuses), holds unconditionally for
checklists, holds for help tickets only when every normalised status is a
recognised value (their histogram has just the three fixed buckets), and
for fms the two classification buckets can undercount the total. -/
theorem aggregate_total_vs_histogram :
    (∀ ts : List Task, (∀ t ∈ ts, t.status ≠ "") →
      (computeTaskStats ts).total = sumCounts (computeTaskStats ts).byStatus) ∧
    (∀ cs : List Checklist,
      (computeChecklistStats cs).total =
        (computeChecklistStats cs).done + (computeChecklistStats cs).notDone) ∧
    (∀ hs : List HelpTicket, (∀ t ∈ hs, htRecognized t = true) →
      (computeHelpTicketStats hs).total =
        (computeHelpTicketStats hs).openCount + (computeHelpTicketStats hs).inProgress +
          (computeHelpTicketStats hs).closed) ∧
    (∀ ps : List Project,
      (computeFmsStats ps).completed + (computeFmsStats ps).inProgress ≤
        (computeFmsStats ps).total) := by
  refine ⟨?_, ?_, ?_, ?_⟩
  · intro ts hst
    rw [computeTask_total, computeTask_sumByStatus]
    exact (List.countP_eq_length.mpr
      (fun t ht => by simp [taskHasStatus, hst t ht])).symm
  · intro cs
    rw [computeCl_total, computeCl_done, computeCl_notDone, countP_not_add]
  · intro hs hrec
    rw [computeHT_total, computeHT_openCount, computeHT_inProgress, computeHT_closed,
      ht_count_partition hs hrec]
  · intro ps
    rw [computeFms_total, computeFms_completed, computeFms_inProgress]
    refine countP_disjoint_le _ _ _ ?_
    intro p _ ⟨h1, h2⟩
    simp [fmsCountsInProgress, h1] at h2

/-- C2 witness: the amended identities evaluated on concrete collections,
including a dynamically-bucketed unrecognised task status. -/
theorem aggregate_total_vs_histogram_witness :
    (([⟨"completed", "one-time", none⟩, ⟨"strange", "daily", none⟩] : List Task).all
        (fun t => t.status != "") = true) ∧
    (computeTaskStats [⟨"completed", "one-time", none⟩, ⟨"strange", "daily", none⟩]).total =
      sumCounts
        (computeTaskStats
          [⟨"completed", "one-time", none⟩, ⟨"strange", "daily", none⟩]).byStatus ∧
    (computeChecklistStats [⟨"Submitted", none⟩, ⟨"", none⟩]).total =
      (computeChecklistStats [⟨"Submitted", none⟩, ⟨"", none⟩]).done +
        (computeChecklistStats [⟨"Submitted", none⟩, ⟨"", none⟩]).notDone ∧
    (computeHelpTicketStats [⟨some "CLOSED", none, none⟩, ⟨none, none, none⟩]).total =
      (computeHelpTicketStats [⟨some "CLOSED", none, none⟩, ⟨none, none, none⟩]).openCount +
        (computeHelpTicketStats [⟨some "CLOSED", none, none⟩, ⟨none, none, none⟩]).inProgress +
        (computeHelpTicketStats [⟨some "CLOSED", none, none⟩, ⟨none, none, none⟩]).closed ∧
    (computeFmsStats [Project.mk []]).completed +
        (computeFmsStats [Project.mk []]).inProgress ≤
      (computeFmsStats [Project.mk []]).total := by
  refine ⟨by decide, ?_, ?_, ?_, ?_⟩
  · exact aggregate_total_vs_histogram.1 _ (by decide)
  · exact aggregate_total_vs_histogram.2.1 _
  · exact aggregate_total_vs_histogram.2.2.1 _ (by decide)
  · exact aggregate_total_vs_histogram.2.2.2 _

/-- C5 counterexample: a help ticket with an unrecognised status and an
assignee produces a `byPerson` record whose `total` (1) differs from the
sum of its status buckets (0). -/
theorem ht_perPerson_cex :
    (computeHelpTicketStats [⟨some "weird", some ⟨"u1", "A", "a"⟩, none⟩]).byPerson =
      [("u1", ⟨"u1", "A", "a", 1, 0, 0, 0⟩)] ∧ (1 : Nat) ≠ 0 + 0 + 0 := by
  refine ⟨by decide, by decide⟩

/-- C5 (amended): each per-person `total` equals the sum of that person's
status buckets — unconditionally for fms (`inProgress + completed +
pendingSteps.length`) and checklists (`done + notDone`); for tasks
provided every status is non-empty and distinct from the record's fixed
keys; for help tickets provided every normalised status is recognised. -/
theorem perPerson_total_vs_buckets :
    (∀ ts : List Task, (∀ t ∈ ts, taskStatusSafe t = true) →
      ∀ e ∈ (computeTaskStats ts).byPerson,
        e.2.total = e.2.pending + e.2.inProgress + e.2.completed + e.2.overdue +
          sumCounts e.2.extra) ∧
    (∀ ps : List Project, ∀ e ∈ (computeFmsStats ps).byPerson,
      e.2.total = e.2.inProgress + e.2.completed + e.2.pendingSteps.length) ∧
    (∀ cs : List Checklist, ∀ e ∈ (computeChecklistStats cs).byPerson,
      e.2.total = e.2.done + e.2.notDone) ∧
    (∀ hs : List HelpTicket, (∀ t ∈ hs, htRecognized t = true) →
      ∀ e ∈ (computeHelpTicketStats hs).byPerson,
        e.2.total = e.2.openCount + e.2.inProgress + e.2.closed) :=
  ⟨computeTask_person_inv, computeFms_person_inv, computeCl_person_inv,
    computeHT_person_inv⟩

/-- C5 witness: the per-person invariants evaluated on concrete records. -/
theorem perPerson_total_vs_buckets_witness :
    (([⟨"pending", "daily", some ⟨"u1", "A", "a"⟩⟩] : List Task).all taskStatusSafe = true) ∧
    (("u1", (⟨"u1", "A", "a", 1, 0, 1, 1, 0, 0, 0, []⟩ : TaskPerson)) ∈
      (computeTaskStats [⟨"pending", "daily", some ⟨"u1", "A", "a"⟩⟩]).byPerson) ∧
    ((1 : Nat) = 1 + 0 + 0 + 0 + sumCounts ([] : List (String × Nat))) ∧
    (("u2", (⟨"u2", "B", "b", 1, 0, 0, [2]⟩ : FmsPerson)) ∈
      (computeFmsStats [Project.mk [⟨2, "Not Started", some ⟨"u2", "B", "b"⟩⟩]]).byPerson) ∧
    ((1 : Nat) = 0 + 0 + ([2] : List Nat).length) ∧
    (("u3", (⟨"u3", "C", "c", 1, 1, 0⟩ : ClPerson)) ∈
      (computeChecklistStats [⟨"Submitted", some ⟨"u3", "C", "c"⟩⟩]).byPerson) ∧
    (("u4", (⟨"u4", "D", "d", 1, 0, 0, 1⟩ : HtPerson)) ∈
      (computeHelpTicketStats [⟨some "closed", some ⟨"u4", "D", "d"⟩, none⟩]).byPerson) ∧
    ((1 : Nat) = 0 + 0 + 1) := by
  refine ⟨by decide, by decide, ?_, by decide, ?_, by decide, by decide, by decide⟩
  · exact perPerson_total_vs_buckets.1 [⟨"pending", "daily", some ⟨"u1", "A", "a"⟩⟩]
      (by decide) ("u1", ⟨"u1", "A", "a", 1, 0, 1, 1, 0, 0, 0, []⟩) (by decide)
  · exact perPerson_total_vs_buckets.2.1 [Project.mk [⟨2, "Not Started", some ⟨"u2", "B", "b"⟩⟩]]
      ("u2", ⟨"u2", "B", "b", 1, 0, 0, [2]⟩) (by decide)

/-- C6: help-ticket status bucketing is case-insensitive — any ticket whose
lower-cased status is `"closed"` or `"verified & closed"` is counted in
the closed bucket, globally and for the person it is attributed to. -/
theorem ht_closed_caseInsensitive (hs : List HelpTicket) (t : HelpTicket) (s : String)
    (hst : t.status = some s)
    (hlow : jsToLower s = "closed" ∨ jsToLower s = "verified & closed") :
    (computeHelpTicketStats (hs ++ [t])).closed = (computeHelpTicketStats hs).closed + 1 ∧
    (∀ k, htPersonId t = k → k ≠ "" →
      projAt HtPerson.closed (computeHelpTicketStats (hs ++ [t])).byPerson k =
        projAt HtPerson.closed (computeHelpTicketStats hs).byPerson k + 1) := by
  have hns : htNormStatus t = jsToLower s := by
    rcases hlow with h | h <;> simp [htNormStatus, hst, h]
  have hcl : htIsClosed t = true := by
    rcases hlow with h | h <;> simp [htIsClosed, hns, h]
  constructor
  · rw [computeHT_closed, computeHT_closed, List.countP_append]
    simp [hcl]
  · intro k hk hkne
    rw [computeHT_closedAt _ _ hkne, computeHT_closedAt _ _ hkne, List.countP_append]
    simp [htAttributedTo, hk, hcl]

/-- C6 witness: `"CLOSED"`, `"closed"` and `"Verified & Closed"` all land in
the closed bucket; the attributed person's closed counter increments. -/
theorem ht_closed_caseInsensitive_witness :
    jsToLower "CLOSED" = "closed" ∧
    (computeHelpTicketStats
        ([] ++ [⟨some "CLOSED", some ⟨"u1", "A", "a"⟩, none⟩])).closed =
      (computeHelpTicketStats []).closed + 1 ∧
    projAt HtPerson.closed
        (computeHelpTicketStats
          ([] ++ [⟨some "CLOSED", some ⟨"u1", "A", "a"⟩, none⟩])).byPerson "u1" =
      projAt HtPerson.closed (computeHelpTicketStats []).byPerson "u1" + 1 ∧
    (computeHelpTicketStats
        [⟨some "CLOSED", none, none⟩, ⟨some "closed", none, none⟩,
         ⟨some "Verified & Closed", none, none⟩]).closed = 3 := by
  have h := ht_closed_caseInsensitive [] ⟨some "CLOSED", some ⟨"u1", "A", "a"⟩, none⟩
    "CLOSED" rfl (Or.inl (by decide))
  exact ⟨by decide, h.1, h.2 "u1" (by decide) (by decide), by decide⟩

/-- C7: a help ticket with missing or empty status is counted as open;
person attribution uses `assignedTo` when it has an id, falls back to
`raisedBy` otherwise, and a ticket with neither reference leaves
`byPerson` unchanged. -/
theorem ht_default_open_and_fallback (hs : List HelpTicket) (t : HelpTicket) :
    ((t.status = none ∨ t.status = some "") →
      (computeHelpTicketStats (hs ++ [t])).openCount =
        (computeHelpTicketStats hs).openCount + 1) ∧
    (∀ u : UserRef, t.assignedTo = some u → u.id ≠ "" →
      projAt HtPerson.total (computeHelpTicketStats (hs ++ [t])).byPerson u.id =
        projAt HtPerson.total (computeHelpTicketStats hs).byPerson u.id + 1) ∧
    (∀ v : UserRef, t.assignedTo = none → t.raisedBy = some v → v.id ≠ "" →
      projAt HtPerson.total (computeHelpTicketStats (hs ++ [t])).byPerson v.id =
        projAt HtPerson.total (computeHelpTicketStats hs).byPerson v.id + 1) ∧
    (t.assignedTo = none → t.raisedBy = none →
      (computeHelpTicketStats (hs ++ [t])).byPerson =
        (computeHelpTicketStats hs).byPerson) := by
  refine ⟨?_, ?_, ?_, ?_⟩
  · intro hstat
    have hno : htNormStatus t = "open" := by
      rcases hstat with h | h <;> simp [htNormStatus, h, jsToLower]
    rw [computeHT_openCount, computeHT_openCount, List.countP_append]
    simp [htIsOpen, hno]
  · intro u hass hu
    have hpid : htPersonId t = u.id := by simp [htPersonId, idOf, hass, hu]
    rw [computeHT_totalAt _ _ hu, computeHT_totalAt _ _ hu, List.countP_append]
    simp [htAttributedTo, hpid]
  · intro v hass hraised hv
    have hpid : htPersonId t = v.id := by simp [htPersonId, idOf, hass, hraised]
    rw [computeHT_totalAt _ _ hv, computeHT_totalAt _ _ hv, List.countP_append]
    simp [htAttributedTo, hpid]
  · intro hass hraised
    have hpid : htPersonId t = "" := by simp [htPersonId, idOf, hass, hraised]
    rw [computeHT_byPerson, computeHT_byPerson, List.foldl_append]
    simp [htPersonStep, hpid]

/-- C7 witness: a ticket with `status` missing, `assignedTo` null and
`raisedBy` = userC is counted as open and attributed to userC; a ticket
with neither reference adds nothing to `byPerson`. -/
theorem ht_default_open_and_fallback_witness :
    (computeHelpTicketStats ([] ++ [⟨none, none, some ⟨"uC", "C", "c"⟩⟩])).openCount =
      (computeHelpTicketStats []).openCount + 1 ∧
    projAt HtPerson.total
        (computeHelpTicketStats ([] ++ [⟨none, none, some ⟨"uC", "C", "c"⟩⟩])).byPerson
        "uC" =
      projAt HtPerson.total (computeHelpTicketStats []).byPerson "uC" + 1 ∧
    (computeHelpTicketStats ([] ++ [⟨some "open", none, none⟩])).byPerson =
      (computeHelpTicketStats []).byPerson := by
  refine ⟨(ht_default_open_and_fallback [] _).1 (Or.inl rfl),
    (ht_default_open_and_fallback [] _).2.2.1 ⟨"uC", "C", "c"⟩ rfl rfl (by decide),
    (ht_default_open_and_fallback [] _).2.2.2 rfl rfl⟩

/-- C8 counterexample: `month = "5x"` is not a numeric string, but
`parseInt` reads its leading digit and validation succeeds — the handler
returns a report instead of the `InvalidInput` rejection the claim
requires for non-numeric input. -/
theorem validation_nonNumeric_cex :
    specNumericString "5x" = false ∧
    parseInt "5x" = some 5 ∧
    exceptIsOk (misHandler (some "2024") (some "5x") ⟨[], [], [], [], []⟩) = true := by
  refine ⟨by decide, by decide, by decide⟩

/-- C8 (amended): the handler rejects with `InvalidInput` exactly when a
parameter is missing/empty, `parseInt` yields NaN, or the parsed month is
outside 1–12 (`parseInt` accepts any string with a leading integer, so
some non-numeric strings pass); otherwise it proceeds and the report is
the four aggregations of the fetched collections. -/
theorem misHandler_validation (y m : Option String) (db : MisDb) :
    (misRequestInvalid y m = true →
      ∃ msg, misHandler y m db = .error (.invalidInput msg)) ∧
    (misRequestInvalid y m = false →
      ∃ r, misHandler y m db = .ok r ∧
        r.tasks = computeTaskStats db.tasks ∧
        r.fms = computeFmsStats db.projects ∧
        r.checklists = computeChecklistStats db.checklists ∧
        r.helpTickets = computeHelpTicketStats db.helpTickets) := by
  unfold misHandler misRequestInvalid
  generalize (match y with | some v => v | none => "") = yv
  generalize (match m with | some v => v | none => "") = mv
  by_cases h0 : yv = "" ∨ mv = ""
  · simp only [if_pos h0]
    exact ⟨fun _ => ⟨"Year and month are required", rfl⟩, fun h => by cases h⟩
  · simp only [if_neg h0]
    cases hy : parseInt yv with
    | none =>
      exact ⟨fun _ => ⟨"Invalid year or month", rfl⟩, fun h => by cases h⟩
    | some yearNum =>
      cases hm : parseInt mv with
      | none =>
        exact ⟨fun _ => ⟨"Invalid year or month", rfl⟩, fun h => by cases h⟩
      | some monthNum =>
        dsimp only
        by_cases hr : monthNum < 1 ∨ monthNum > 12
        · rw [if_pos hr]
          have hb : (decide (monthNum < 1) || decide (monthNum > 12)) = true := by
            rcases hr with h | h <;> simp [h]
          rw [hb]
          exact ⟨fun _ => ⟨"Invalid year or month", rfl⟩, fun h => by cases h⟩
        · rw [if_neg hr]
          have hb : (decide (monthNum < 1) || decide (monthNum > 12)) = false := by
            simp only [Bool.or_eq_false_iff, decide_eq_false_iff_not]
            push_neg at hr
            exact ⟨by omega, by omega⟩
          rw [hb]
          refine ⟨fun h => absurd h (by simp), fun _ => ⟨_, rfl, rfl, rfl, rfl, rfl⟩⟩

/-- C8 witness: a valid request (year 2024, month 7) passes validation and
produces the aggregated report. -/
theorem misHandler_validation_witness :
    misRequestInvalid (some "2024") (some "7") = false ∧
    exceptIsOk (misHandler (some "2024") (some "7") ⟨[], [], [], [], []⟩) = true ∧
    (∃ msg, misHandler (some "2024") (some "0") ⟨[], [], [], [], []⟩ =
      .error (.invalidInput msg)) := by
  refine ⟨by decide, ?_, ?_⟩
  · obtain ⟨r, hr, _⟩ :=
      (misHandler_validation (some "2024") (some "7") ⟨[], [], [], [], []⟩).2 (by decide)
    rw [hr]
    rfl
  · exact (misHandler_validation (some "2024") (some "0") ⟨[], [], [], [], []⟩).1 (by decide)

end MisReport





